import Mathlib

/-!
Verification of the Arm NN compute-graph core (layer/graph/slot data model,
connection protocol, shape inference, optimisation pass) against its
natural-language specification.  The repository sources available are the
`Network_test.cpp` test suite and the `MergerLayer.hpp` declaration; the
bodies of `Graph`, `OutputSlot::Connect`, `MergerLayer::ValidateTensorShapesFromInputs`
and `Optimize` are not in the sample, so those operations are modelled from
the specification text (each such definition carries a `Modelled from the
spec:` doc comment).
-/

namespace ArmNN

/-- Element data type of a tensor (armnn::DataType). -/
inductive DataType where
  | Float16
  | Float32
  | QuantisedAsymm8
  deriving DecidableEq, Repr

/-- Modelled from the spec: "Tensor Descriptor: immutable value = (ordered
sequence of dimension sizes, element data type). Equality is structural."
(armnn::TensorInfo). -/
structure TensorInfo where
  shape : List Nat
  dataType : DataType
  deriving DecidableEq, Repr

/-- A non-owning reference to a slot: the index of its owning layer in the
graph's arena plus the slot index within that layer.  Modelled from the spec
design note: "Slots store indices (or equivalent non-owning handles) into
that arena". -/
structure SlotRef where
  layer : Nat
  slot : Nat
  deriving DecidableEq, Repr

/-- Modelled from the spec: "Input Slot: holds at most one back-reference to
the Output Slot that feeds it"; it may also already carry a resolved Tensor
Descriptor, which `Connect` validates against the producer's. -/
structure InputSlot where
  connection : Option SlotRef
  tensorInfo : Option TensorInfo
  deriving DecidableEq, Repr

/-- Modelled from the spec: "Output Slot: holds an optional Tensor Descriptor
(unset until inferred/assigned) and an ordered collection of zero-or-more
references to Input Slots it feeds (fan-out)." -/
structure OutputSlot where
  tensorInfo : Option TensorInfo
  connections : List SlotRef
  deriving DecidableEq, Repr

/-- Origins descriptor of a Merger (concatenation) layer: declared dimension
count and one origin offset vector per input view (armnn::OriginsDescriptor). -/
structure OriginsDescriptor where
  numDims : Nat
  viewOrigins : List (List Nat)
  deriving DecidableEq, Repr

/-- Number of input views declared by an origins descriptor. -/
def OriginsDescriptor.numViews (o : OriginsDescriptor) : Nat :=
  o.viewOrigins.length

/-- armnn::OriginsDescriptor(numViews, numDimensions): all origins zeroed. -/
def mkOriginsDescriptor (numViews numDims : Nat) : OriginsDescriptor :=
  ⟨numDims, List.replicate numViews (List.replicate numDims 0)⟩

/-- Views descriptor of a Splitter layer: origins plus a size vector per
output view (armnn::ViewsDescriptor). -/
structure ViewsDescriptor where
  numDims : Nat
  viewOrigins : List (List Nat)
  viewSizes : List (List Nat)
  deriving DecidableEq, Repr

/-- Number of views declared by a views descriptor. -/
def ViewsDescriptor.numViews (v : ViewsDescriptor) : Nat :=
  v.viewOrigins.length

/-- armnn::ViewsDescriptor(numViews, numDimensions): all origins and sizes zeroed. -/
def mkViewsDescriptor (numViews numDims : Nat) : ViewsDescriptor :=
  ⟨numDims, List.replicate numViews (List.replicate numDims 0),
    List.replicate numViews (List.replicate numDims 0)⟩

/-- The closed operator-kind variant set of the sample (spec §3 "Layer ...
is polymorphic over the operator-kind variant set"). -/
inductive LayerKind where
  | Input
  | Output
  | Addition
  | Multiplication
  | Splitter (views : ViewsDescriptor)
  | Merger (origins : OriginsDescriptor)
  | Convolution2d
  | FullyConnected
  | Pooling2d
  | Activation
  | Normalization
  | Softmax
  | BatchNormalization
  deriving DecidableEq, Repr

/-- Backend capabilities named by the test suite's DeviceSpec (armnn::Compute). -/
inductive Backend where
  | CpuRef
  | CpuAcc
  | GpuAcc
  deriving DecidableEq, Repr

/-- The error taxonomy of spec §7. -/
inductive ArmError where
  | InvalidConnection
  | ShapeMismatch
  | TypeMismatch
  | UnassignedInputShape
  | UnsupportedOperator
  | OptimizationError
  deriving DecidableEq, Repr

/-- Number of Input Slots fixed at construction for each operator kind
(spec §8: "the number of Input Slots and Output Slots of L equals the fixed
arity declared for its operator kind"). -/
def numInputSlots : LayerKind → Nat
  | .Input => 0
  | .Output => 1
  | .Addition => 2
  | .Multiplication => 2
  | .Splitter _ => 1
  | .Merger o => o.numViews
  | .Convolution2d => 1
  | .FullyConnected => 1
  | .Pooling2d => 1
  | .Activation => 1
  | .Normalization => 1
  | .Softmax => 1
  | .BatchNormalization => 1

/-- Number of Output Slots fixed at construction for each operator kind. -/
def numOutputSlots : LayerKind → Nat
  | .Input => 1
  | .Output => 0
  | .Splitter v => v.numViews
  | _ => 1

/-- A graph node (armnn::Layer): process-unique GUID, optional name, operator
kind, its slots, and the backend assigned by the optimizer (none before). -/
structure Layer where
  guid : Nat
  name : String
  kind : LayerKind
  inputSlots : List InputSlot
  outputSlots : List OutputSlot
  backend : Option Backend
  deriving DecidableEq, Repr

/-- A freshly constructed layer: slot counts fixed by the operator kind,
every input slot unconnected, every output slot descriptor unset, no
backend assigned. -/
def makeLayer (guid : Nat) (kind : LayerKind) (name : String) : Layer :=
  { guid := guid
    name := name
    kind := kind
    inputSlots := List.replicate (numInputSlots kind) ⟨none, none⟩
    outputSlots := List.replicate (numOutputSlots kind) ⟨none, []⟩
    backend := none }

/-- armnn::Graph as an arena owning its layers (spec design note: "Graph owns
a dense store of Layers by stable index/identity"). -/
structure Graph where
  layers : List Layer
  deriving DecidableEq, Repr

/-- Point update of a list: apply `f` at position `i`, identity elsewhere. -/
def setAt : List α → Nat → (α → α) → List α
  | [], _, _ => []
  | a :: as, 0, f => f a :: as
  | a :: as, n + 1, f => a :: setAt as n f

/-- Look up a layer by arena index. -/
def Graph.getLayer (g : Graph) (i : Nat) : Option Layer :=
  g.layers[i]?

/-- Look up an output slot by reference. -/
def Graph.getOutputSlot (g : Graph) (r : SlotRef) : Option OutputSlot :=
  (g.layers[r.layer]?).bind fun l => l.outputSlots[r.slot]?

/-- Look up an input slot by reference. -/
def Graph.getInputSlot (g : Graph) (r : SlotRef) : Option InputSlot :=
  (g.layers[r.layer]?).bind fun l => l.inputSlots[r.slot]?

/-- The back-reference held by an input slot (`InputSlot::GetConnection`). -/
def Graph.inputConnection (g : Graph) (r : SlotRef) : Option SlotRef :=
  (g.getInputSlot r).bind (·.connection)

/-- The ordered fan-out collection of an output slot
(`OutputSlot::GetConnection(i)` indexes into it). -/
def Graph.fanOut (g : Graph) (r : SlotRef) : List SlotRef :=
  ((g.getOutputSlot r).map (·.connections)).getD []

/-- Point update of one layer in the arena. -/
def Graph.modifyLayer (g : Graph) (i : Nat) (f : Layer → Layer) : Graph :=
  ⟨setAt g.layers i f⟩

/-- Set the back-reference of an input slot. -/
def Graph.setInputConnection (g : Graph) (r : SlotRef) (c : Option SlotRef) : Graph :=
  g.modifyLayer r.layer fun l =>
    { l with inputSlots := setAt l.inputSlots r.slot fun s => { s with connection := c } }

/-- Append one entry to the fan-out collection of an output slot. -/
def Graph.addFanOut (g : Graph) (r d : SlotRef) : Graph :=
  g.modifyLayer r.layer fun l =>
    { l with outputSlots := setAt l.outputSlots r.slot fun s =>
        { s with connections := s.connections ++ [d] } }

/-- Remove one entry from the fan-out collection of an output slot. -/
def Graph.removeFanOut (g : Graph) (r d : SlotRef) : Graph :=
  g.modifyLayer r.layer fun l =>
    { l with outputSlots := setAt l.outputSlots r.slot fun s =>
        { s with connections := s.connections.erase d } }

/-- Modelled from the spec: "`SetTensorInfo(descriptor)` on an Output Slot:
assigns/overwrites the resolved descriptor" (`OutputSlot::SetTensorInfo`). -/
def Graph.setTensorInfo (g : Graph) (r : SlotRef) (info : TensorInfo) : Graph :=
  g.modifyLayer r.layer fun l =>
    { l with outputSlots := setAt l.outputSlots r.slot fun s =>
        { s with tensorInfo := some info } }

/-- Successor layer indices: targets of all fan-out edges of a layer. -/
def Graph.succs (g : Graph) (i : Nat) : List Nat :=
  match g.layers[i]? with
  | none => []
  | some l => (l.outputSlots.flatMap (·.connections)).map (·.layer)

/-- Fuel-bounded reachability along fan-out edges (`a = b` counts as reached). -/
def reachesFuel (g : Graph) : Nat → Nat → Nat → Bool
  | 0, a, b => a == b
  | fuel + 1, a, b => a == b || (g.succs a).any fun c => reachesFuel g fuel c b

/-- Layer `b` is reachable from layer `a` along connection edges; the fuel
equal to the layer count suffices because any path can be shortened below it. -/
def Graph.reaches (g : Graph) (a b : Nat) : Bool :=
  reachesFuel g g.layers.length a b

/-- Two optional descriptors conflict when both are resolved and differ. -/
def tensorInfoConflict : Option TensorInfo → Option TensorInfo → Bool
  | some a, some b => a ≠ b
  | _, _ => false

/-- Modelled from the spec: "`Connect(outputSlot, inputSlot)`: fails with
`InvalidConnection` if the Input Slot is already connected, or if connecting
would create a cycle. On success, appends a fan-out edge and, if both slots
already carry resolved Tensor Descriptors, validates they match ...; mismatch
fails with `ShapeMismatch`. Side effect: Input Slot's back-reference is set;
Output Slot's fan-out list gains one entry."  (`OutputSlot::Connect`; the
implementation is not in the sample.)  A dangling slot reference is also an
`InvalidConnection`. -/
def Graph.connect (g : Graph) (src dst : SlotRef) : Except ArmError Graph :=
  match g.getOutputSlot src, g.getInputSlot dst with
  | some os, some is =>
    if is.connection.isSome then .error .InvalidConnection
    else if g.reaches dst.layer src.layer then .error .InvalidConnection
    else if tensorInfoConflict os.tensorInfo is.tensorInfo then .error .ShapeMismatch
    else .ok ((g.setInputConnection dst (some src)).addFanOut src dst)
  | _, _ => .error .InvalidConnection

/-- Modelled from the spec: "`Disconnect`: removes exactly one specific edge;
fails silently (no-op) if the edge does not exist — disconnection must never
leave an Input Slot ambiguously connected." -/
def Graph.disconnect (g : Graph) (src dst : SlotRef) : Graph :=
  let g' := g.removeFanOut src dst
  if g.inputConnection dst = some src then g'.setInputConnection dst none else g'

/-- `Connect` with the exception swallowed at the call site: on failure the
graph is left as it was (exceptions propagate before any mutation). -/
def Graph.connectOrKeep (g : Graph) (src dst : SlotRef) : Graph :=
  match g.connect src dst with
  | .ok g' => g'
  | .error _ => g

/-- Shape-inference rule of the elementwise operators (Addition,
Multiplication).  Modelled from the spec: "elementwise operators require
identical shapes on all inputs"; element-type disagreement is a
`TypeMismatch` (spec §7). -/
def elementwiseInfer : List TensorInfo → Except ArmError (List TensorInfo)
  | [a, b] =>
    if a.shape = b.shape then
      if a.dataType = b.dataType then .ok [a] else .error .TypeMismatch
    else .error .ShapeMismatch
  | _ => .error .ShapeMismatch

/-- One-dimensional half-open intervals `[a, a+sa)` and `[b, b+sb)` intersect. -/
def overlap1D (a sa b sb : Nat) : Bool :=
  a < b + sb && b < a + sa

/-- Two placed views (origin + extent boxes) overlap: their intervals
intersect on every one of the `numDims` axes. -/
def regionsOverlap (numDims : Nat) (o1 s1 o2 s2 : List Nat) : Bool :=
  (List.range numDims).all fun d =>
    overlap1D (o1.getD d 0) (s1.getD d 0) (o2.getD d 0) (s2.getD d 0)

/-- No two of the placed views (listed as origin/shape pairs) overlap. -/
def viewsDisjoint (numDims : Nat) : List (List Nat × List Nat) → Bool
  | [] => true
  | v :: vs =>
    vs.all (fun w => !(regionsOverlap numDims v.1 v.2 w.1 w.2)) && viewsDisjoint numDims vs

/-- All inputs agree with the first input's element type. -/
def typesAgree : List TensorInfo → Bool
  | [] => true
  | i :: rest => rest.all fun j => j.dataType == i.dataType

/-- The element type common to the inputs (the first input's type). -/
def commonDataType : List TensorInfo → DataType
  | [] => .Float32
  | i :: _ => i.dataType

/-- Bounding box of all placed views: on each axis, the largest
`origin + extent` over the views. -/
def boundingShape (o : OriginsDescriptor) (infos : List TensorInfo) : List Nat :=
  (List.range o.numDims).map fun d =>
    ((o.viewOrigins.zip infos).map fun v => v.1.getD d 0 + v.2.shape.getD d 0).foldr max 0

/-- Modelled from the spec: `MergerLayer::ValidateTensorShapesFromInputs`
(declared in MergerLayer.hpp; body not in the sample): "checks: every input's
rank equals the declared dimension count; no two views' placed regions
overlap; ... output descriptor = that bounding shape with the element type
common to all inputs (fails with `TypeMismatch` if inputs disagree on element
type)"; overlap and rank violations are `ShapeMismatch`. -/
def mergerInfer (o : OriginsDescriptor) (infos : List TensorInfo) :
    Except ArmError (List TensorInfo) :=
  if !(infos.all fun i => i.shape.length == o.numDims) then .error .ShapeMismatch
  else if !(typesAgree infos) then .error .TypeMismatch
  else if !(viewsDisjoint o.numDims (o.viewOrigins.zip (infos.map (·.shape)))) then
    .error .ShapeMismatch
  else .ok [⟨boundingShape o infos, commonDataType infos⟩]

/-- Per-operator shape-inference rule: descriptors of the output slots as a
function of the (all resolved) input descriptors.  The rules for the layer
kinds whose bodies the sample excludes as "repetitive variants" (Convolution2d,
FullyConnected, Pooling2d, Activation, Normalization, Softmax,
BatchNormalization) are modelled from the spec as single-input shape-preserving
operators; the concat-style operator (Merger) carries the full rule of §4.2. -/
def inferOutputs : LayerKind → List TensorInfo → Except ArmError (List TensorInfo)
  | .Input, _ => .ok []
  | .Output, _ => .ok []
  | .Addition, infos => elementwiseInfer infos
  | .Multiplication, infos => elementwiseInfer infos
  | .Splitter v, infos =>
    match infos with
    | [i] => .ok (v.viewSizes.map fun s => ⟨s, i.dataType⟩)
    | _ => .error .ShapeMismatch
  | .Merger o, infos => mergerInfer o infos
  | _, infos =>
    match infos with
    | [i] => .ok [i]
    | _ => .error .ShapeMismatch

/-- The descriptor feeding an input slot: the resolved descriptor of the
output slot it is connected to. -/
def Graph.slotSourceInfo (g : Graph) (s : InputSlot) : Option TensorInfo :=
  s.connection.bind fun c => (g.getOutputSlot c).bind (·.tensorInfo)

/-- Collect an optional value for every element; `none` as soon as one is `none`. -/
def collectSome (f : α → Option β) : List α → Option (List β)
  | [] => some []
  | a :: as =>
    match f a, collectSome f as with
    | some b, some bs => some (b :: bs)
    | _, _ => none

/-- The resolved descriptors on a layer's input slots, when all are resolved. -/
def Graph.inputInfos (g : Graph) (i : Nat) : Option (List TensorInfo) :=
  match g.layers[i]? with
  | none => none
  | some l => collectSome g.slotSourceInfo l.inputSlots

/-- Overwrite the descriptors of a layer's output slots, position by position. -/
def setInfosList : List OutputSlot → List TensorInfo → List OutputSlot
  | slots, [] => slots
  | [], _ => []
  | s :: slots, i :: infos => { s with tensorInfo := some i } :: setInfosList slots infos

/-- Assign the inferred descriptors to the output slots of layer `i`. -/
def Graph.setOutputInfos (g : Graph) (i : Nat) (infos : List TensorInfo) : Graph :=
  g.modifyLayer i fun l => { l with outputSlots := setInfosList l.outputSlots infos }

/-- Whether the operator kind is the graph's designated Input operator
(whose descriptor comes from the caller's bindings, not from inference). -/
def LayerKind.isInput : LayerKind → Bool
  | .Input => true
  | _ => false

/-- Modelled from the spec: `Layer::ValidateTensorShapesFromInputs` — "pure
function of the Tensor Descriptors currently set on this Layer's Input Slots
(all must be resolved — fails with `UnassignedInputShape` otherwise); computes
and assigns the Tensor Descriptor for each Output Slot according to the
operator's shape-inference rule".  An Input layer instead keeps the descriptor
supplied through the input bindings (spec §4.3).  A rule that does not cover
every output slot is a contract violation. -/
def Graph.validateTensorShapesFromInputs (g : Graph) (i : Nat) :
    Except ArmError Graph :=
  match g.layers[i]? with
  | none => .error .OptimizationError
  | some l =>
    if l.kind.isInput then .ok g
    else
      match g.inputInfos i with
      | none => .error .UnassignedInputShape
      | some infos =>
        match inferOutputs l.kind infos with
        | .error e => .error e
        | .ok outs =>
          if outs.length = l.outputSlots.length then .ok (g.setOutputInfos i outs)
          else .error .ShapeMismatch

/-- Every input slot of every layer holds a back-reference (spec §4.4 step 1:
"Structural validation: every Input Slot of every Layer connected"; the test
helper `AreAllLayerInputSlotsConnected` checks one layer). -/
def Graph.allInputSlotsConnected (g : Graph) : Bool :=
  g.layers.all fun l => l.inputSlots.all fun s => s.connection.isSome

/-- The predecessor layer indices feeding a layer's connected input slots. -/
def Graph.preds (g : Graph) (i : Nat) : List Nat :=
  match g.layers[i]? with
  | none => []
  | some l => (l.inputSlots.filterMap (·.connection)).map (·.layer)

/-- Layer `i` may be emitted next by the topological sort: it exists, has not
been emitted, and all its predecessors have been. -/
def Graph.ready (g : Graph) (done : List Nat) (i : Nat) : Bool :=
  decide (i < g.layers.length) && !(done.contains i) &&
    (g.preds i).all fun p => done.contains p

/-- Kahn-style topological sort loop: repeatedly emit the lowest-index ready
layer; `done` is the reversed list of emitted layers. -/
def topoLoop (g : Graph) : Nat → List Nat → Option (List Nat)
  | 0, done => if done.length = g.layers.length then some done.reverse else none
  | fuel + 1, done =>
    if done.length = g.layers.length then some done.reverse
    else
      match (List.range g.layers.length).find? (g.ready done) with
      | none => none
      | some i => topoLoop g fuel (i :: done)

/-- Modelled from the spec: "iteration in a valid topological order consistent
with the connection edges"; returns `none` when the connection graph is cyclic. -/
def Graph.topoOrder (g : Graph) : Option (List Nat) :=
  topoLoop g g.layers.length []

/-- Run shape inference on the listed layers in order, aborting on the first
violated operator contract (spec §4.3 "Inference fails fast"). -/
def inferAll (g : Graph) : List Nat → Except ArmError Graph
  | [] => .ok g
  | i :: rest =>
    match g.validateTensorShapesFromInputs i with
    | .error e => .error e
    | .ok g' => inferAll g' rest

/-- Modelled from the spec §4.3: "Driven by the Optimizer: visits Layers in
topological order; for each Layer whose inputs are all resolved, invokes its
`ValidateTensorShapesFromInputs`"; a cyclic graph is a structural
`OptimizationError`. -/
def Graph.inferShapes (g : Graph) : Except ArmError Graph :=
  match g.topoOrder with
  | none => .error .OptimizationError
  | some ord => inferAll g ord

/-- Assign to one layer the first backend of the policy that supports its
operator kind (spec §4.4 step 3). -/
def assignLayer (sup : Backend → LayerKind → Bool) (policy : List Backend)
    (l : Layer) : Option Layer :=
  (policy.find? fun b => sup b l.kind).map fun b => { l with backend := some b }

/-- Assign a backend to every layer in order; `none` when some layer is
supported by no backend of the policy. -/
def assignList (sup : Backend → LayerKind → Bool) (policy : List Backend) :
    List Layer → Option (List Layer)
  | [] => some []
  | l :: ls =>
    match assignLayer sup policy l, assignList sup policy ls with
    | some l', some ls' => some (l' :: ls')
    | _, _ => none

/-- Modelled from the spec §4.4 step 3: "Backend assignment: for each Layer,
pick the first backend in the preference list that declares support for that
operator ... fails with `UnsupportedOperator` if none match." -/
def assignBackends (sup : Backend → LayerKind → Bool) (policy : List Backend)
    (g : Graph) : Except ArmError Graph :=
  match assignList sup policy g.layers with
  | some ls => .ok ⟨ls⟩
  | none => .error .UnsupportedOperator

/-- Modelled from the spec §4.4 `Optimize()`: structural validation (every
input slot connected, acyclicity via the topological sort), then shape
inference, then backend assignment; it "either returns a fully validated
Optimized Network or fails atomically".  The backend capability surface
(`bool Supports(operatorKind, ...)`) is the external parameter `sup`. -/
def optimize (sup : Backend → LayerKind → Bool) (policy : List Backend)
    (g : Graph) : Except ArmError Graph :=
  if g.allInputSlotsConnected then
    match g.inferShapes with
    | .error e => .error e
    | .ok g1 => assignBackends sup policy g1
  else .error .OptimizationError

/-- Every output slot of the layer carries a resolved descriptor. -/
def Layer.outputsResolved (l : Layer) : Bool :=
  l.outputSlots.all fun s => s.tensorInfo.isSome

/-- Every output slot of every layer carries a resolved descriptor. -/
def Graph.allOutputSlotsResolved (g : Graph) : Bool :=
  g.layers.all Layer.outputsResolved

/-- Every layer has been assigned a backend capability. -/
def Graph.allBackendsAssigned (g : Graph) : Bool :=
  g.layers.all fun l => l.backend.isSome

/-- Every Input layer's output slots already carry the caller-supplied
binding descriptors (spec §4.3: the Input Layer "receives its Tensor
Descriptor from the caller-supplied network input bindings before inference
begins"). -/
def Graph.inputLayersResolved (g : Graph) : Bool :=
  g.layers.all fun l => !(l.kind.isInput) || l.outputsResolved

/-- One call of the Network builder / wiring API on a single graph
(spec §4.5, §6 "Builder API surface"). -/
inductive GOp where
  | addLayer (kind : LayerKind) (name : String)
  | connect (src dst : SlotRef)
  | setTensorInfo (slot : SlotRef) (info : TensorInfo)

/-- Apply one builder call; `addLayer` consumes the next process-wide GUID
(spec §4.5: "monotonic counter is sufficient"); a failed `Connect` raises
before mutating, so the graph is kept. -/
def Graph.applyOp (g : Graph) (nextGuid : Nat) : GOp → Graph × Nat
  | .addLayer kind nm => (⟨g.layers ++ [makeLayer nextGuid kind nm]⟩, nextGuid + 1)
  | .connect src dst => (g.connectOrKeep src dst, nextGuid)
  | .setTensorInfo r info => (g.setTensorInfo r info, nextGuid)

/-- Run a sequence of builder calls on one graph, threading the GUID counter. -/
def runGOps : Graph → Nat → List GOp → Graph × Nat
  | g, n, [] => (g, n)
  | g, n, op :: ops =>
    let p := g.applyOp n op
    runGOps p.1 p.2 ops

/-- `GraphHasNamedLayer` of the test utilities: lookup by name succeeds. -/
def Graph.hasNamedLayer (g : Graph) (nm : String) : Bool :=
  g.layers.any fun l => l.name == nm

/-- Number of `addLayer` calls in a builder call sequence. -/
def countAdds : List GOp → Nat
  | [] => 0
  | .addLayer _ _ :: ops => countAdds ops + 1
  | _ :: ops => countAdds ops

/-- The names given to the layers added by a builder call sequence. -/
def addedNames : List GOp → List String
  | [] => []
  | .addLayer _ nm :: ops => nm :: addedNames ops
  | _ :: ops => addedNames ops

/-- A process-level builder step: creating a fresh Network, or one builder
call on an existing Network; all Networks of the process share the GUID
counter (spec §4.5: "Layer GUIDs are unique within a process"). -/
inductive ProcOp where
  | newNetwork
  | netOp (net : Nat) (op : GOp)

/-- The process state: the Networks created so far (each a thin owner of one
Graph) and the process-scoped GUID sequence state. -/
structure Process where
  networks : List Graph
  nextGuid : Nat

/-- Apply one process-level builder step. -/
def Process.applyOp (p : Process) : ProcOp → Process
  | .newNetwork => ⟨p.networks ++ [⟨[]⟩], p.nextGuid⟩
  | .netOp k op =>
    match p.networks[k]? with
    | none => p
    | some g =>
      let r := g.applyOp p.nextGuid op
      ⟨setAt p.networks k fun _ => r.1, r.2⟩

/-- Run a sequence of process-level builder steps. -/
def Process.run (p : Process) : List ProcOp → Process
  | [] => p
  | op :: ops => (p.applyOp op).run ops

/-- The process with no Networks and the GUID counter at zero. -/
def emptyProcess : Process := ⟨[], 0⟩

/-- The GUIDs of a graph's layers, in arena order. -/
def guidsOf (g : Graph) : List Nat :=
  g.layers.map (·.guid)

/-- All GUIDs ever handed out in the process, across all its Networks. -/
def Process.allGuids (p : Process) : List Nat :=
  p.networks.flatMap guidsOf

/-- The GUID of layer `j` of network `k`, when it exists. -/
def Process.guidAt (p : Process) (k j : Nat) : Option Nat :=
  (p.networks[k]?).bind fun g => (guidsOf g)[j]?

/-- Printed form of a tensor shape in the dot export: `[4]`, `[3,5]`. -/
def shapeLabel (s : List Nat) : String :=
  "[" ++ String.intercalate "," (s.map toString) ++ "]"

/-- The operator-kind label of a layer node in the dot export. -/
def kindLabel : LayerKind → String
  | .Input => "Input"
  | .Output => "Output"
  | .Addition => "Addition"
  | .Multiplication => "Multiplication"
  | .Splitter _ => "Splitter"
  | .Merger _ => "Merger"
  | .Convolution2d => "Convolution2d"
  | .FullyConnected => "FullyConnected"
  | .Pooling2d => "Pooling2d"
  | .Activation => "Activation"
  | .Normalization => "Normalization"
  | .Softmax => "Softmax"
  | .BatchNormalization => "BatchNormalization"

/-- The dot line of one node: the layer's GUID labeled by its operator kind. -/
def dotNode (l : Layer) : String :=
  "    " ++ toString l.guid ++ " [label=\"\x7b" ++ kindLabel l.kind ++ "\x7d\"];\n"

/-- The dot lines of the edges leaving one output slot, in fan-out order,
each labeled by the transmitted tensor's shape. -/
def dotEdgesOfSlot (g : Graph) (srcGuid : Nat) (s : OutputSlot) : String :=
  String.join (s.connections.map fun c =>
    "    " ++ toString srcGuid ++ " -> " ++
      toString ((((g.layers[c.layer]?).map (·.guid))).getD 0) ++
      " [label=< " ++ shapeLabel (((s.tensorInfo).map (·.shape)).getD []) ++ " >];\n")

/-- Modelled from the spec §6 "Graph textual export": "a directed-graph
description where each node is labeled by operator kind and each edge is
labeled by the transmitted tensor's shape; node and edge ordering must match
Graph iteration and per-Output-Slot fan-out order exactly"
(`OptimizedNetwork::SerializeToDot`; the expected text is fixed by the
`SerializeToDot` test case). -/
def Graph.serializeToDot (g : Graph) : String :=
  "digraph Optimized \x7b\n" ++
    "    node [shape=\"record\"];\n" ++
    "    edge [fontsize=8 fontcolor=\"blue\" fontname=\"arial-bold\"];\n" ++
    String.join (g.layers.map dotNode) ++
    String.join (g.layers.map fun l =>
      String.join (l.outputSlots.map (dotEdgesOfSlot g l.guid))) ++
    "\x7d\n"

/-- An `Except` value is a success. -/
def Except.isOk : Except ε α → Bool
  | .ok _ => true
  | .error _ => false

/-- Connect one output slot to input slots `0, 1, ..., n-1` of layer `tgt`,
in construction order (the call-session order of spec §4.1). -/
def connectSeq (g : Graph) (src : SlotRef) (tgt : Nat) : Nat → Except ArmError Graph
  | 0 => .ok g
  | n + 1 =>
    match connectSeq g src tgt n with
    | .error e => .error e
    | .ok g' => g'.connect src ⟨tgt, n⟩

/-- No input slot of layer `i` is fed by layer `i` itself (a consequence of
acyclicity, §3: "the connection graph induced by Slots is acyclic"). -/
def Graph.noSelfLoopAt (g : Graph) (i : Nat) : Bool :=
  match g.layers[i]? with
  | none => true
  | some l =>
    l.inputSlots.all fun s =>
      match s.connection with
      | some c => c.layer != i
      | none => true

/-- The builder call sequence of the `SerializeToDot` test case:
Input → Addition (twice from the same output slot) → Output, with a 1-D
size-4 Float32 descriptor on both producing slots. -/
def dotTestOps : List GOp :=
  [ .addLayer .Input "input"
  , .addLayer .Addition "add"
  , .addLayer .Output "output"
  , .connect ⟨0, 0⟩ ⟨1, 0⟩
  , .connect ⟨0, 0⟩ ⟨1, 1⟩
  , .connect ⟨1, 0⟩ ⟨2, 0⟩
  , .setTensorInfo ⟨0, 0⟩ ⟨[4], .Float32⟩
  , .setTensorInfo ⟨1, 0⟩ ⟨[4], .Float32⟩ ]

/-- The graph built by `dotTestOps` (layer GUIDs 0, 1, 2). -/
def dotTestGraph : Graph :=
  (runGOps ⟨[]⟩ 0 dotTestOps).1

/-- A two-layer graph with an unconnected producer and an unconnected
two-input consumer, for exercising the connection protocol. -/
def pairGraph : Graph :=
  (runGOps ⟨[]⟩ 0 [.addLayer .Input "src", .addLayer .Addition "tgt"]).1

/-- A two-layer graph whose producer and consumer slots carry conflicting
resolved descriptors, for exercising the `ShapeMismatch` connection failure. -/
def mismatchGraph : Graph :=
  ⟨[ { makeLayer 0 .Input "i" with outputSlots := [⟨some ⟨[3], .Float32⟩, []⟩] },
     { makeLayer 1 .Output "o" with inputSlots := [⟨none, some ⟨[4], .Float32⟩⟩] } ]⟩

/-- A two-view one-dimensional origins descriptor placing view 1 at offset 2. -/
def twoViewOrigins : OriginsDescriptor := ⟨1, [[0], [2]]⟩

/-- Input descriptors for the two views: sizes 2 and 3, both Float32. -/
def twoViewInputs : List TensorInfo := [⟨[2], .Float32⟩, ⟨[3], .Float32⟩]

/-- A small straight-line network (Input → Softmax → Output) with the input
binding descriptor set, for exercising `optimize` end to end. -/
def lineOps : List GOp :=
  [ .addLayer .Input "in"
  , .addLayer .Softmax "sm"
  , .addLayer .Output "out"
  , .connect ⟨0, 0⟩ ⟨1, 0⟩
  , .connect ⟨1, 0⟩ ⟨2, 0⟩
  , .setTensorInfo ⟨0, 0⟩ ⟨[3, 5], .Float32⟩ ]

/-- The graph built by `lineOps`. -/
def lineGraph : Graph :=
  (runGOps ⟨[]⟩ 0 lineOps).1

/-- A backend capability surface under which every backend supports every
operator (the reference backend of the `ValidateWorkloads` test). -/
def supAll : Backend → LayerKind → Bool := fun _ _ => true

theorem setAt_length (l : List α) (i : Nat) (f : α → α) :
    (setAt l i f).length = l.length := by
  induction l generalizing i with
  | nil => rfl
  | cons a as ih =>
    cases i with
    | zero => rfl
    | succ n => simp [setAt, ih]

theorem getElem?_setAt_self (l : List α) (i : Nat) (f : α → α) :
    (setAt l i f)[i]? = l[i]?.map f := by
  induction l generalizing i with
  | nil => rfl
  | cons a as ih =>
    cases i with
    | zero => simp [setAt]
    | succ n => simpa [setAt] using ih n

theorem getElem?_setAt_ne (l : List α) (i j : Nat) (f : α → α) (h : j ≠ i) :
    (setAt l i f)[j]? = l[j]? := by
  induction l generalizing i j with
  | nil => rfl
  | cons a as ih =>
    cases i with
    | zero =>
      cases j with
      | zero => exact absurd rfl h
      | succ m => rfl
    | succ n =>
      cases j with
      | zero => simp [setAt]
      | succ m => simpa [setAt] using ih n m (fun hc => h (by simp [hc]))

theorem map_setAt {β : Type} (l : List α) (i : Nat) (f : α → α)
    (proj : α → β) (hf : ∀ a, proj (f a) = proj a) :
    (setAt l i f).map proj = l.map proj := by
  induction l generalizing i with
  | nil => rfl
  | cons a as ih =>
    cases i with
    | zero => simp [setAt, hf]
    | succ n => simp [setAt, ih]

theorem getInputSlot_modifyLayer_outputs (g : Graph) (i : Nat)
    (f : Layer → Layer) (hf : ∀ l, (f l).inputSlots = l.inputSlots) (r : SlotRef) :
    (g.modifyLayer i f).getInputSlot r = g.getInputSlot r := by
  unfold Graph.getInputSlot Graph.modifyLayer
  by_cases h : r.layer = i
  · subst h
    rw [getElem?_setAt_self]
    cases g.layers[r.layer]? with
    | none => rfl
    | some l => simp [Option.bind, hf]
  · rw [getElem?_setAt_ne _ _ _ _ h]

theorem getOutputSlot_modifyLayer_inputs (g : Graph) (i : Nat)
    (f : Layer → Layer) (hf : ∀ l, (f l).outputSlots = l.outputSlots) (r : SlotRef) :
    (g.modifyLayer i f).getOutputSlot r = g.getOutputSlot r := by
  unfold Graph.getOutputSlot Graph.modifyLayer
  by_cases h : r.layer = i
  · subst h
    rw [getElem?_setAt_self]
    cases g.layers[r.layer]? with
    | none => rfl
    | some l => simp [Option.bind, hf]
  · rw [getElem?_setAt_ne _ _ _ _ h]

theorem getOutputSlot_setInputConnection (g : Graph) (r : SlotRef)
    (c : Option SlotRef) (r' : SlotRef) :
    (g.setInputConnection r c).getOutputSlot r' = g.getOutputSlot r' := by
  unfold Graph.setInputConnection
  apply getOutputSlot_modifyLayer_inputs
  intro l
  rfl

theorem getInputSlot_addFanOut (g : Graph) (r d : SlotRef) (r' : SlotRef) :
    (g.addFanOut r d).getInputSlot r' = g.getInputSlot r' := by
  unfold Graph.addFanOut
  apply getInputSlot_modifyLayer_outputs
  intro l
  rfl

theorem getInputSlot_removeFanOut (g : Graph) (r d : SlotRef) (r' : SlotRef) :
    (g.removeFanOut r d).getInputSlot r' = g.getInputSlot r' := by
  unfold Graph.removeFanOut
  apply getInputSlot_modifyLayer_outputs
  intro l
  rfl

theorem getInputSlot_setTensorInfo (g : Graph) (r : SlotRef) (info : TensorInfo)
    (r' : SlotRef) :
    (g.setTensorInfo r info).getInputSlot r' = g.getInputSlot r' := by
  unfold Graph.setTensorInfo
  apply getInputSlot_modifyLayer_outputs
  intro l
  rfl

/-- Reading the slot just updated by a slot-level point update. -/
theorem getInputSlot_setInputConnection_self (g : Graph) (r : SlotRef)
    (c : Option SlotRef) :
    (g.setInputConnection r c).getInputSlot r =
      (g.getInputSlot r).map fun s => { s with connection := c } := by
  unfold Graph.setInputConnection Graph.getInputSlot Graph.modifyLayer
  rw [getElem?_setAt_self]
  cases g.layers[r.layer]? with
  | none => rfl
  | some l =>
    simp [Option.bind, getElem?_setAt_self]

theorem getInputSlot_setInputConnection_ne (g : Graph) (r : SlotRef)
    (c : Option SlotRef) (r' : SlotRef) (h : r' ≠ r) :
    (g.setInputConnection r c).getInputSlot r' = g.getInputSlot r' := by
  unfold Graph.setInputConnection Graph.getInputSlot Graph.modifyLayer
  by_cases hl : r'.layer = r.layer
  · have hs : r'.slot ≠ r.slot := by
      intro hc
      exact h (by cases r; cases r'; simp_all)
    rw [hl, getElem?_setAt_self]
    cases g.layers[r.layer]? with
    | none => rfl
    | some l =>
      simp [Option.bind, getElem?_setAt_ne _ _ _ _ hs]
  · rw [getElem?_setAt_ne _ _ _ _ hl]

theorem getOutputSlot_addFanOut_self (g : Graph) (r d : SlotRef) :
    (g.addFanOut r d).getOutputSlot r =
      (g.getOutputSlot r).map fun s => { s with connections := s.connections ++ [d] } := by
  unfold Graph.addFanOut Graph.getOutputSlot Graph.modifyLayer
  rw [getElem?_setAt_self]
  cases g.layers[r.layer]? with
  | none => rfl
  | some l =>
    simp [Option.bind, getElem?_setAt_self]

theorem getOutputSlot_addFanOut_ne (g : Graph) (r d : SlotRef) (r' : SlotRef)
    (h : r' ≠ r) :
    (g.addFanOut r d).getOutputSlot r' = g.getOutputSlot r' := by
  unfold Graph.addFanOut Graph.getOutputSlot Graph.modifyLayer
  by_cases hl : r'.layer = r.layer
  · have hs : r'.slot ≠ r.slot := by
      intro hc
      exact h (by cases r; cases r'; simp_all)
    rw [hl, getElem?_setAt_self]
    cases g.layers[r.layer]? with
    | none => rfl
    | some l =>
      simp [Option.bind, getElem?_setAt_ne _ _ _ _ hs]
  · rw [getElem?_setAt_ne _ _ _ _ hl]

theorem getOutputSlot_removeFanOut_self (g : Graph) (r d : SlotRef) :
    (g.removeFanOut r d).getOutputSlot r =
      (g.getOutputSlot r).map fun s => { s with connections := s.connections.erase d } := by
  unfold Graph.removeFanOut Graph.getOutputSlot Graph.modifyLayer
  rw [getElem?_setAt_self]
  cases g.layers[r.layer]? with
  | none => rfl
  | some l =>
    simp [Option.bind, getElem?_setAt_self]

theorem getOutputSlot_removeFanOut_ne (g : Graph) (r d : SlotRef) (r' : SlotRef)
    (h : r' ≠ r) :
    (g.removeFanOut r d).getOutputSlot r' = g.getOutputSlot r' := by
  unfold Graph.removeFanOut Graph.getOutputSlot Graph.modifyLayer
  by_cases hl : r'.layer = r.layer
  · have hs : r'.slot ≠ r.slot := by
      intro hc
      exact h (by cases r; cases r'; simp_all)
    rw [hl, getElem?_setAt_self]
    cases g.layers[r.layer]? with
    | none => rfl
    | some l =>
      simp [Option.bind, getElem?_setAt_ne _ _ _ _ hs]
  · rw [getElem?_setAt_ne _ _ _ _ hl]

theorem getOutputSlot_modifyLayer_ne (g : Graph) (i : Nat) (f : Layer → Layer)
    (r : SlotRef) (h : r.layer ≠ i) :
    (g.modifyLayer i f).getOutputSlot r = g.getOutputSlot r := by
  unfold Graph.getOutputSlot Graph.modifyLayer
  rw [getElem?_setAt_ne _ _ _ _ h]

theorem getLayer_modifyLayer_self (g : Graph) (i : Nat) (f : Layer → Layer) :
    (g.modifyLayer i f).layers[i]? = (g.layers[i]?).map f := by
  unfold Graph.modifyLayer
  exact getElem?_setAt_self _ _ _

theorem getLayer_modifyLayer_ne (g : Graph) (i : Nat) (f : Layer → Layer)
    (j : Nat) (h : j ≠ i) :
    (g.modifyLayer i f).layers[j]? = g.layers[j]? := by
  unfold Graph.modifyLayer
  exact getElem?_setAt_ne _ _ _ _ h

/-- Anatomy of a successful `Connect`: both slot references were valid, the
input slot was unbound, no cycle would have been created, the resolved
descriptors did not conflict, and the result is exactly the two-sided edge
insertion. -/
theorem connect_ok_spec (g : Graph) (src dst : SlotRef) (g' : Graph)
    (h : g.connect src dst = .ok g') :
    ∃ os is, g.getOutputSlot src = some os ∧ g.getInputSlot dst = some is ∧
      is.connection = none ∧ g.reaches dst.layer src.layer = false ∧
      tensorInfoConflict os.tensorInfo is.tensorInfo = false ∧
      g' = (g.setInputConnection dst (some src)).addFanOut src dst := by
  unfold Graph.connect at h
  cases hos : g.getOutputSlot src with
  | none => rw [hos] at h; cases hy : g.getInputSlot dst <;> rw [hy] at h <;> cases h
  | some os =>
    cases his : g.getInputSlot dst with
    | none => rw [hos, his] at h; cases h
    | some is =>
      rw [hos, his] at h
      dsimp only at h
      by_cases hc : is.connection.isSome
      · rw [if_pos hc] at h; cases h
      · rw [if_neg hc] at h
        by_cases hr : g.reaches dst.layer src.layer
        · rw [if_pos hr] at h; cases h
        · rw [if_neg hr] at h
          by_cases ht : tensorInfoConflict os.tensorInfo is.tensorInfo
          · rw [if_pos ht] at h; cases h
          · rw [if_neg ht] at h
            cases h
            exact ⟨os, is, rfl, rfl, Option.not_isSome_iff_eq_none.mp hc,
              Bool.eq_false_iff.mpr hr, Bool.eq_false_iff.mpr ht, rfl⟩

/-- After a successful `Connect`, the input slot's back-reference names the
output slot. -/
theorem connect_sets_backref (g : Graph) (src dst : SlotRef) (g' : Graph)
    (h : g.connect src dst = .ok g') :
    g'.inputConnection dst = some src := by
  obtain ⟨os, is, -, his, -, -, -, hg'⟩ := connect_ok_spec g src dst g' h
  subst hg'
  unfold Graph.inputConnection
  rw [getInputSlot_addFanOut, getInputSlot_setInputConnection_self, his]
  rfl

/-- After a successful `Connect`, the output slot's fan-out is the previous
fan-out with the input slot appended at the end. -/
theorem connect_appends_fanout (g : Graph) (src dst : SlotRef) (g' : Graph)
    (h : g.connect src dst = .ok g') :
    g'.fanOut src = g.fanOut src ++ [dst] := by
  obtain ⟨os, is, hos, -, -, -, -, hg'⟩ := connect_ok_spec g src dst g' h
  subst hg'
  unfold Graph.fanOut
  rw [getOutputSlot_addFanOut_self, getOutputSlot_setInputConnection, hos]
  rfl

/-- A successful `Connect` leaves every other input slot's back-reference
unchanged. -/
theorem connect_preserves_other_backrefs (g : Graph) (src dst : SlotRef)
    (g' : Graph) (h : g.connect src dst = .ok g') (r : SlotRef) (hr : r ≠ dst) :
    g'.inputConnection r = g.inputConnection r := by
  obtain ⟨os, is, -, -, -, -, -, hg'⟩ := connect_ok_spec g src dst g' h
  subst hg'
  unfold Graph.inputConnection
  rw [getInputSlot_addFanOut, getInputSlot_setInputConnection_ne _ _ _ _ hr]

/-- A successful `Connect` leaves every other output slot's fan-out unchanged. -/
theorem connect_preserves_other_fanouts (g : Graph) (src dst : SlotRef)
    (g' : Graph) (h : g.connect src dst = .ok g') (r : SlotRef) (hr : r ≠ src) :
    g'.fanOut r = g.fanOut r := by
  obtain ⟨os, is, -, -, -, -, -, hg'⟩ := connect_ok_spec g src dst g' h
  subst hg'
  unfold Graph.fanOut
  rw [getOutputSlot_addFanOut_ne _ _ _ _ hr, getOutputSlot_setInputConnection]

theorem collectSome_congr (f f' : α → Option β) (l : List α)
    (h : ∀ a ∈ l, f a = f' a) : collectSome f l = collectSome f' l := by
  induction l with
  | nil => rfl
  | cons a as ih =>
    simp only [collectSome, h a (by simp)]
    rw [ih fun a ha => h a (by simp [ha])]

/-- C2: For every pair (outputSlot, inputSlot) on which `Connect` succeeded,
the input slot's back-reference names that output slot and the output slot's
fan-out collection contains that input slot; a subsequent `Disconnect` of the
pair removes exactly that edge and no other edge — the input slot ends
unambiguously disconnected, the fan-out returns to its previous contents, and
every other slot is untouched.  (The hypothesis that the input slot was not
already listed in the fan-out is the §3 single-back-reference invariant.) -/
theorem connect_then_disconnect_spec (g : Graph) (src dst : SlotRef) (g' : Graph)
    (hok : g.connect src dst = .ok g')
    (hfan : dst ∉ g.fanOut src) :
    g'.inputConnection dst = some src
  ∧ dst ∈ g'.fanOut src
  ∧ (g'.disconnect src dst).inputConnection dst = none
  ∧ (g'.disconnect src dst).fanOut src = g.fanOut src
  ∧ (∀ r, r ≠ dst → (g'.disconnect src dst).inputConnection r = g'.inputConnection r)
  ∧ (∀ r, r ≠ src → (g'.disconnect src dst).fanOut r = g'.fanOut r) := by
  have hback := connect_sets_backref g src dst g' hok
  have happ := connect_appends_fanout g src dst g' hok
  obtain ⟨os, is, hos, his, hisc, -, -, hg'⟩ := connect_ok_spec g src dst g' hok
  have hdis : g'.disconnect src dst = (g'.removeFanOut src dst).setInputConnection dst none := by
    unfold Graph.disconnect
    rw [if_pos hback]
  refine ⟨hback, by rw [happ]; simp, ?_, ?_, ?_, ?_⟩
  · rw [hdis]
    unfold Graph.inputConnection
    rw [getInputSlot_setInputConnection_self, getInputSlot_removeFanOut]
    unfold Graph.inputConnection at hback
    cases hx : g'.getInputSlot dst with
    | none => rw [hx] at hback; cases hback
    | some s => rfl
  · rw [hdis]
    unfold Graph.fanOut
    rw [getOutputSlot_setInputConnection, getOutputSlot_removeFanOut_self]
    have hcur : g'.fanOut src = g.fanOut src ++ [dst] := happ
    unfold Graph.fanOut at hcur
    cases hx : g'.getOutputSlot src with
    | none =>
      rw [hx] at hcur
      simp at hcur
    | some s =>
      rw [hx] at hcur
      simp only [Option.map_some', Option.getD_some] at hcur
      simp only [Option.map_some', Option.getD_some]
      have hfan' : dst ∉ (Option.map (fun x => x.connections) (g.getOutputSlot src)).getD [] :=
        hfan
      rw [hcur, List.erase_append_right _ hfan', List.erase_cons_head,
        List.append_nil]
  · intro r hr
    rw [hdis]
    unfold Graph.inputConnection
    rw [getInputSlot_setInputConnection_ne _ _ _ _ hr, getInputSlot_removeFanOut]
  · intro r hr
    rw [hdis]
    unfold Graph.fanOut
    rw [getOutputSlot_setInputConnection, getOutputSlot_removeFanOut_ne _ _ _ _ hr]

/-- Witness for C2 on a concrete graph: the Input layer's output slot is
connected to input slot 0 of the Addition layer, then disconnected. -/
theorem connect_then_disconnect_spec_witness :
    pairGraph.connect ⟨0, 0⟩ ⟨1, 0⟩ = .ok (pairGraph.connectOrKeep ⟨0, 0⟩ ⟨1, 0⟩)
  ∧ ((⟨1, 0⟩ : SlotRef) ∉ pairGraph.fanOut ⟨0, 0⟩)
  ∧ ((pairGraph.connectOrKeep ⟨0, 0⟩ ⟨1, 0⟩).inputConnection ⟨1, 0⟩ = some ⟨0, 0⟩
     ∧ (⟨1, 0⟩ : SlotRef) ∈ (pairGraph.connectOrKeep ⟨0, 0⟩ ⟨1, 0⟩).fanOut ⟨0, 0⟩
     ∧ ((pairGraph.connectOrKeep ⟨0, 0⟩ ⟨1, 0⟩).disconnect ⟨0, 0⟩ ⟨1, 0⟩).inputConnection ⟨1, 0⟩ = none
     ∧ ((pairGraph.connectOrKeep ⟨0, 0⟩ ⟨1, 0⟩).disconnect ⟨0, 0⟩ ⟨1, 0⟩).fanOut ⟨0, 0⟩ = pairGraph.fanOut ⟨0, 0⟩
     ∧ (∀ r, r ≠ ⟨1, 0⟩ → ((pairGraph.connectOrKeep ⟨0, 0⟩ ⟨1, 0⟩).disconnect ⟨0, 0⟩ ⟨1, 0⟩).inputConnection r = (pairGraph.connectOrKeep ⟨0, 0⟩ ⟨1, 0⟩).inputConnection r)
     ∧ (∀ r, r ≠ ⟨0, 0⟩ → ((pairGraph.connectOrKeep ⟨0, 0⟩ ⟨1, 0⟩).disconnect ⟨0, 0⟩ ⟨1, 0⟩).fanOut r = (pairGraph.connectOrKeep ⟨0, 0⟩ ⟨1, 0⟩).fanOut r)) :=
  ⟨by rfl, by decide,
    connect_then_disconnect_spec pairGraph ⟨0, 0⟩ ⟨1, 0⟩ _ (by rfl) (by decide)⟩

/-- Connecting one output slot to input slots `0..n-1` of a target layer in
construction order yields, on success, a fan-out equal to the previous
fan-out followed by those input slots in order, with every back-reference set. -/
theorem connectSeq_spec (g : Graph) (src : SlotRef) (tgt : Nat) (n : Nat)
    (g' : Graph) (hok : connectSeq g src tgt n = .ok g') :
    g'.fanOut src = g.fanOut src ++ (List.range n).map (fun i => ⟨tgt, i⟩)
  ∧ ∀ i < n, g'.inputConnection ⟨tgt, i⟩ = some src := by
  induction n generalizing g' with
  | zero =>
    cases hok
    simp
  | succ n ih =>
    unfold connectSeq at hok
    cases hm : connectSeq g src tgt n with
    | error e => rw [hm] at hok; cases hok
    | ok g1 =>
      rw [hm] at hok
      obtain ⟨hfan, hconn⟩ := ih g1 hm
      have happ := connect_appends_fanout g1 src ⟨tgt, n⟩ g' hok
      have hset := connect_sets_backref g1 src ⟨tgt, n⟩ g' hok
      constructor
      · rw [happ, hfan, List.range_succ, List.map_append, List.append_assoc]
        rfl
      · intro i hi
        rcases Nat.lt_succ_iff_lt_or_eq.mp hi with h | h
        · rw [connect_preserves_other_backrefs g1 src ⟨tgt, n⟩ g' hok ⟨tgt, i⟩
            (by intro hc; injection hc with h1 h2; omega)]
          exact hconn i h
        · subst h
          exact hset

/-- C3: when one output slot is connected to the input slots of a target
layer in construction order (input slot 0 first, then 1, ...), the fan-out
has exactly those connections and, for every index `i` below the number of
connections, `GetConnection(i)` is the target layer's input slot `i` — the
fan-out order equals the insertion order of the call session. -/
theorem fanout_order_is_construction_order (g : Graph) (src : SlotRef)
    (tgt n : Nat) (g' : Graph)
    (hok : connectSeq g src tgt n = .ok g')
    (hempty : g.fanOut src = []) :
    (g'.fanOut src).length = n
  ∧ ∀ i < n, (g'.fanOut src)[i]? = some ⟨tgt, i⟩
       ∧ g'.inputConnection ⟨tgt, i⟩ = some src := by
  obtain ⟨hfan, hconn⟩ := connectSeq_spec g src tgt n g' hok
  rw [hfan, hempty]
  constructor
  · simp
  · intro i hi
    refine ⟨?_, hconn i hi⟩
    simp [List.getElem?_map, hi]

/-- Witness for C3: the Input layer's output slot of `pairGraph` is connected
to the Addition layer's input slots 0 and 1 in order. -/
theorem fanout_order_is_construction_order_witness :
    connectSeq pairGraph ⟨0, 0⟩ 1 2 =
      .ok ((pairGraph.connectOrKeep ⟨0, 0⟩ ⟨1, 0⟩).connectOrKeep ⟨0, 0⟩ ⟨1, 1⟩)
  ∧ pairGraph.fanOut ⟨0, 0⟩ = []
  ∧ ((((pairGraph.connectOrKeep ⟨0, 0⟩ ⟨1, 0⟩).connectOrKeep ⟨0, 0⟩ ⟨1, 1⟩).fanOut ⟨0, 0⟩).length = 2
     ∧ ∀ i < 2,
         (((pairGraph.connectOrKeep ⟨0, 0⟩ ⟨1, 0⟩).connectOrKeep ⟨0, 0⟩ ⟨1, 1⟩).fanOut ⟨0, 0⟩)[i]? = some ⟨1, i⟩
       ∧ ((pairGraph.connectOrKeep ⟨0, 0⟩ ⟨1, 0⟩).connectOrKeep ⟨0, 0⟩ ⟨1, 1⟩).inputConnection ⟨1, i⟩ = some ⟨0, 0⟩) :=
  ⟨by rfl, by rfl,
    fanout_order_is_construction_order pairGraph ⟨0, 0⟩ 1 2 _ (by rfl) (by rfl)⟩

/-- C4: `Connect` fails with `InvalidConnection` when the input slot already
holds a back-reference (or when the new edge would create a cycle), and with
`ShapeMismatch` when both slots carry resolved descriptors that differ; in
every failure case the exception propagates before any mutation, so the graph
— in particular the input slot's back-reference and the fan-out — is unchanged. -/
theorem connect_failure_modes (g : Graph) (src dst : SlotRef)
    (os : OutputSlot) (is : InputSlot)
    (hos : g.getOutputSlot src = some os) (his : g.getInputSlot dst = some is) :
    (is.connection.isSome = true → g.connect src dst = .error .InvalidConnection)
  ∧ (is.connection = none → g.reaches dst.layer src.layer = true →
       g.connect src dst = .error .InvalidConnection)
  ∧ (is.connection = none → g.reaches dst.layer src.layer = false →
       tensorInfoConflict os.tensorInfo is.tensorInfo = true →
       g.connect src dst = .error .ShapeMismatch)
  ∧ (Except.isOk (g.connect src dst) = false → g.connectOrKeep src dst = g) := by
  refine ⟨?_, ?_, ?_, ?_⟩
  · intro hc
    unfold Graph.connect
    rw [hos, his]
    dsimp only
    rw [if_pos hc]
  · intro hc hr
    unfold Graph.connect
    rw [hos, his]
    dsimp only
    rw [if_neg (by simp [hc]), if_pos hr]
  · intro hc hr ht
    unfold Graph.connect
    rw [hos, his]
    dsimp only
    rw [if_neg (by simp [hc]), if_neg (by simp [hr]), if_pos ht]
  · intro hfail
    unfold Graph.connectOrKeep
    cases hx : g.connect src dst with
    | ok g' =>
      rw [hx] at hfail
      simp [Except.isOk] at hfail
    | error e => rfl

/-- Witness for C4: connecting the conflicting slots of `mismatchGraph`
(producer resolved to shape [3], consumer resolved to shape [4]) fails with
`ShapeMismatch`. -/
theorem connect_failure_modes_witness :
    mismatchGraph.connect ⟨0, 0⟩ ⟨1, 0⟩ = .error .ShapeMismatch :=
  (connect_failure_modes mismatchGraph ⟨0, 0⟩ ⟨1, 0⟩
    ⟨some ⟨[3], .Float32⟩, []⟩ ⟨none, some ⟨[4], .Float32⟩⟩
    (by rfl) (by rfl)).2.2.1 (by rfl) (by rfl) (by rfl)

/-- C10: operator arities are fixed by kind at construction — Input 0/1,
Output 1/0, Addition and Multiplication 2/1, a Splitter built from
ViewsDescriptor(2,4) has 2 output slots, a Merger built from
OriginsDescriptor(2,4) has 2 input slots — and every input slot of a freshly
constructed layer of any kind has a null back-reference (until a `Connect`
succeeds). -/
theorem layer_arities_fixed_at_construction :
    (makeLayer 0 .Input "in").inputSlots.length = 0
  ∧ (makeLayer 0 .Input "in").outputSlots.length = 1
  ∧ (makeLayer 1 .Output "out").inputSlots.length = 1
  ∧ (makeLayer 1 .Output "out").outputSlots.length = 0
  ∧ (makeLayer 2 .Addition "add").inputSlots.length = 2
  ∧ (makeLayer 2 .Addition "add").outputSlots.length = 1
  ∧ (makeLayer 3 .Multiplication "mul").inputSlots.length = 2
  ∧ (makeLayer 3 .Multiplication "mul").outputSlots.length = 1
  ∧ (makeLayer 4 (.Splitter (mkViewsDescriptor 2 4)) "split").outputSlots.length = 2
  ∧ (makeLayer 5 (.Merger (mkOriginsDescriptor 2 4)) "merge").inputSlots.length = 2
  ∧ ∀ (kind : LayerKind) (nm : String) (gd : Nat),
      ((makeLayer gd kind nm).inputSlots.all fun s => s.connection == none) = true := by
  refine ⟨rfl, rfl, rfl, rfl, rfl, rfl, rfl, rfl, by decide, by decide, ?_⟩
  intro kind nm gd
  apply List.all_eq_true.mpr
  intro s hs
  rw [List.eq_of_mem_replicate hs]
  rfl

theorem map_modifyLayer {β : Type} (g : Graph) (i : Nat) (f : Layer → Layer)
    (proj : Layer → β) (hf : ∀ l, proj (f l) = proj l) :
    (g.modifyLayer i f).layers.map proj = g.layers.map proj :=
  map_setAt g.layers i f proj hf

/-- A swallowed-or-successful `Connect` never changes any per-layer projection
that ignores the slots (name, GUID, kind, ...). -/
theorem map_connectOrKeep {β : Type} (g : Graph) (s d : SlotRef)
    (proj : Layer → β)
    (h1 : ∀ l isl, proj { l with inputSlots := isl } = proj l)
    (h2 : ∀ l osl, proj { l with outputSlots := osl } = proj l) :
    (g.connectOrKeep s d).layers.map proj = g.layers.map proj := by
  unfold Graph.connectOrKeep
  cases hx : g.connect s d with
  | error e => rfl
  | ok g' =>
    obtain ⟨os, is, -, -, -, -, -, hg'⟩ := connect_ok_spec g s d g' hx
    subst hg'
    unfold Graph.addFanOut Graph.setInputConnection
    rw [map_modifyLayer _ _ _ _ (fun l => h2 _ _), map_modifyLayer _ _ _ _ (fun l => h1 _ _)]

/-- `SetTensorInfo` never changes any per-layer projection that ignores the
slots. -/
theorem map_setTensorInfo {β : Type} (g : Graph) (r : SlotRef) (info : TensorInfo)
    (proj : Layer → β)
    (h2 : ∀ l osl, proj { l with outputSlots := osl } = proj l) :
    (g.setTensorInfo r info).layers.map proj = g.layers.map proj := by
  unfold Graph.setTensorInfo
  rw [map_modifyLayer _ _ _ _ (fun l => h2 _ _)]

theorem hasNamedLayer_congr (g g' : Graph)
    (h : g'.layers.map (fun l => l.name) = g.layers.map (fun l => l.name))
    (nm : String) : g'.hasNamedLayer nm = g.hasNamedLayer nm := by
  unfold Graph.hasNamedLayer
  have e1 : ∀ L : List Layer,
      (L.any fun l => l.name == nm) = (L.map (fun l => l.name)).any (fun s => s == nm) := by
    intro L
    induction L with
    | nil => rfl
    | cons a as ih => simp [List.any_cons, ih]
  rw [e1, e1, h]

theorem length_congr_of_map_names (g g' : Graph)
    (h : g'.layers.map (fun l => l.name) = g.layers.map (fun l => l.name)) :
    g'.layers.length = g.layers.length := by
  have := congrArg List.length h
  simpa using this

/-- C9: `Connect` and `SetTensorInfo` never change the set of layers owned by
the graph — after any builder call sequence, the layer count equals the
previous count plus the number of `Add*Layer` calls, every previously present
named layer is still present, and every layer added by the sequence is
present (lookup by its name succeeds). -/
theorem builder_calls_preserve_layer_set (ops : List GOp) (g : Graph) (n : Nat) :
    (runGOps g n ops).1.layers.length = g.layers.length + countAdds ops
  ∧ (∀ nm, g.hasNamedLayer nm = true → (runGOps g n ops).1.hasNamedLayer nm = true)
  ∧ (∀ nm ∈ addedNames ops, (runGOps g n ops).1.hasNamedLayer nm = true) := by
  induction ops generalizing g n with
  | nil => exact ⟨by simp [runGOps, countAdds], fun nm h => h, by simp [addedNames]⟩
  | cons op ops ih =>
    cases op with
    | addLayer k nm =>
      have hrun : runGOps g n (.addLayer k nm :: ops) =
          runGOps ⟨g.layers ++ [makeLayer n k nm]⟩ (n + 1) ops := rfl
      obtain ⟨ihl, ihp, iha⟩ := ih ⟨g.layers ++ [makeLayer n k nm]⟩ (n + 1)
      refine ⟨?_, ?_, ?_⟩
      · rw [hrun, ihl]
        simp [countAdds]
        omega
      · intro nm' h
        rw [hrun]
        apply ihp
        unfold Graph.hasNamedLayer at h ⊢
        simp only [List.any_append, h, Bool.true_or]
      · intro nm' hmem
        rw [hrun]
        rcases List.mem_cons.mp hmem with h | h
        · subst h
          apply ihp
          unfold Graph.hasNamedLayer
          simp [makeLayer]
        · exact iha nm' h
    | connect s d =>
      have hmap := map_connectOrKeep g s d (fun l => l.name)
        (fun _ _ => rfl) (fun _ _ => rfl)
      have hrun : runGOps g n (.connect s d :: ops) =
          runGOps (g.connectOrKeep s d) n ops := rfl
      obtain ⟨ihl, ihp, iha⟩ := ih (g.connectOrKeep s d) n
      refine ⟨?_, ?_, ?_⟩
      · rw [hrun, ihl, length_congr_of_map_names _ _ hmap]
        rfl
      · intro nm h
        rw [hrun]
        exact ihp nm (by rw [hasNamedLayer_congr _ _ hmap]; exact h)
      · intro nm hmem
        rw [hrun]
        exact iha nm hmem
    | setTensorInfo r info =>
      have hmap := map_setTensorInfo g r info (fun l => l.name) (fun _ _ => rfl)
      have hrun : runGOps g n (.setTensorInfo r info :: ops) =
          runGOps (g.setTensorInfo r info) n ops := rfl
      obtain ⟨ihl, ihp, iha⟩ := ih (g.setTensorInfo r info) n
      refine ⟨?_, ?_, ?_⟩
      · rw [hrun, ihl, length_congr_of_map_names _ _ hmap]
        rfl
      · intro nm h
        rw [hrun]
        exact ihp nm (by rw [hasNamedLayer_congr _ _ hmap]; exact h)
      · intro nm hmem
        rw [hrun]
        exact iha nm hmem

/-- Witness for C9 on the `SerializeToDot` builder sequence: 3 add-layer
calls interleaved with connects and descriptor assignments yield exactly 3
layers, all three present by name. -/
theorem builder_calls_preserve_layer_set_witness :
    dotTestGraph.layers.length = (⟨[]⟩ : Graph).layers.length + countAdds dotTestOps
  ∧ dotTestGraph.hasNamedLayer "add" = true :=
  ⟨(builder_calls_preserve_layer_set dotTestOps ⟨[]⟩ 0).1,
    (builder_calls_preserve_layer_set dotTestOps ⟨[]⟩ 0).2.2 "add" (by decide)⟩

/-- One builder call either appends exactly the fresh GUID (an `addLayer`
call, which also advances the counter) or leaves the graph's GUID list and
the counter untouched. -/
theorem applyOp_guids (g : Graph) (n : Nat) (op : GOp) :
    (guidsOf (g.applyOp n op).1 = guidsOf g ++ [n] ∧ (g.applyOp n op).2 = n + 1)
  ∨ (guidsOf (g.applyOp n op).1 = guidsOf g ∧ (g.applyOp n op).2 = n) := by
  cases op with
  | addLayer k nm =>
    left
    exact ⟨by simp [Graph.applyOp, guidsOf, makeLayer], rfl⟩
  | connect s d =>
    right
    exact ⟨map_connectOrKeep g s d (fun l => l.guid) (fun _ _ => rfl) (fun _ _ => rfl), rfl⟩
  | setTensorInfo r info =>
    right
    exact ⟨map_setTensorInfo g r info (fun l => l.guid) (fun _ _ => rfl), rfl⟩

/-- Decomposing the concatenated GUID list of a list of graphs around the
entry at position `k`, before and after a point replacement there. -/
theorem flatMap_setAt_decomp (fn : Graph → List Nat) (l : List Graph) (k : Nat)
    (a : Graph) (hk : l[k]? = some a) (b : Graph) :
    l.flatMap fn = (l.take k).flatMap fn ++ fn a ++ (l.drop (k + 1)).flatMap fn
  ∧ (setAt l k fun _ => b).flatMap fn =
      (l.take k).flatMap fn ++ fn b ++ (l.drop (k + 1)).flatMap fn := by
  induction l generalizing k with
  | nil => cases hk
  | cons x xs ih =>
    cases k with
    | zero =>
      simp only [List.getElem?_cons_zero] at hk
      cases hk
      constructor
      · simp
      · simp [setAt]
    | succ m =>
      simp only [List.getElem?_cons_succ] at hk
      obtain ⟨h1, h2⟩ := ih m hk
      constructor
      · simp only [List.flatMap_cons, h1, List.take_succ_cons, List.drop_succ_cons,
          List.append_assoc]
      · simp only [setAt, List.flatMap_cons, h2, List.take_succ_cons,
          List.drop_succ_cons, List.append_assoc]

/-- One process-level builder step preserves the GUID invariant: the
concatenated GUID list across all networks stays duplicate-free, and every
GUID stays below the counter. -/
theorem applyProcOp_invariant (p : Process) (op : ProcOp)
    (hnd : p.allGuids.Nodup) (hlt : ∀ x ∈ p.allGuids, x < p.nextGuid) :
    (p.applyOp op).allGuids.Nodup
  ∧ ∀ x ∈ (p.applyOp op).allGuids, x < (p.applyOp op).nextGuid := by
  cases op with
  | newNetwork =>
    refine ⟨?_, ?_⟩
    · simpa [Process.applyOp, Process.allGuids, guidsOf] using hnd
    · intro x hx
      simp only [Process.applyOp, Process.allGuids, List.flatMap_append] at hx
      simp only [guidsOf, List.flatMap_cons, List.flatMap_nil, List.map_nil,
        List.append_nil] at hx
      exact hlt x hx
  | netOp k op =>
    cases hk : p.networks[k]? with
    | none =>
      simp only [Process.applyOp, hk]
      exact ⟨hnd, hlt⟩
    | some gk =>
      obtain ⟨hold, hnew⟩ := flatMap_setAt_decomp guidsOf p.networks k gk hk
        (gk.applyOp p.nextGuid op).1
      rcases applyOp_guids gk p.nextGuid op with ⟨hgs, hnx⟩ | ⟨hgs, hnx⟩
      · -- an addLayer call: the fresh GUID p.nextGuid is appended
        have hall : (p.applyOp (.netOp k op)).allGuids =
            (p.networks.take k).flatMap guidsOf ++ (guidsOf gk ++ [p.nextGuid]) ++
            (p.networks.drop (k + 1)).flatMap guidsOf := by
          simp only [Process.applyOp, hk, Process.allGuids]
          rw [hnew, hgs]
        have holdall : p.allGuids =
            (p.networks.take k).flatMap guidsOf ++ guidsOf gk ++
            (p.networks.drop (k + 1)).flatMap guidsOf := hold
        have hfresh : p.nextGuid ∉ p.allGuids := fun hmem =>
          absurd (hlt _ hmem) (lt_irrefl _)
        refine ⟨?_, ?_⟩
        · rw [hall]
          have hshape : (p.networks.take k).flatMap guidsOf ++ (guidsOf gk ++ [p.nextGuid]) ++
              (p.networks.drop (k + 1)).flatMap guidsOf =
              ((p.networks.take k).flatMap guidsOf ++ guidsOf gk) ++
                p.nextGuid :: (p.networks.drop (k + 1)).flatMap guidsOf := by
            simp [List.append_assoc]
          rw [hshape, List.nodup_middle]
          apply List.Nodup.cons
          · intro hmem
            apply hfresh
            rw [holdall]
            simp only [List.append_assoc, List.mem_append] at hmem ⊢
            tauto
          · rw [holdall] at hnd
            simpa [List.append_assoc] using hnd
        · intro x hx
          have hnext : (p.applyOp (.netOp k op)).nextGuid = p.nextGuid + 1 := by
            simp only [Process.applyOp, hk]
            exact hnx
          rw [hnext]
          have hx' : x ∈ p.allGuids ∨ x = p.nextGuid := by
            rw [hall] at hx
            rw [holdall]
            simp only [List.append_assoc, List.mem_append, List.mem_cons,
              List.not_mem_nil, or_false] at hx ⊢
            tauto
          rcases hx' with h | h
          · exact Nat.lt_succ_of_lt (hlt x h)
          · exact h ▸ Nat.lt_succ_self _
      · -- a connect / setTensorInfo call: the GUID list is unchanged
        have hall : (p.applyOp (.netOp k op)).allGuids = p.allGuids := by
          simp only [Process.applyOp, hk, Process.allGuids]
          rw [hnew, hgs, ← hold]
        have hnext : (p.applyOp (.netOp k op)).nextGuid = p.nextGuid := by
          simp only [Process.applyOp, hk]
          exact hnx
        rw [hall, hnext]
        exact ⟨hnd, hlt⟩

/-- Running builder steps preserves the GUID invariant. -/
theorem run_invariant (ops : List ProcOp) (p : Process)
    (hnd : p.allGuids.Nodup) (hlt : ∀ x ∈ p.allGuids, x < p.nextGuid) :
    (p.run ops).allGuids.Nodup
  ∧ ∀ x ∈ (p.run ops).allGuids, x < (p.run ops).nextGuid := by
  induction ops generalizing p with
  | nil => exact ⟨hnd, hlt⟩
  | cons op ops ih =>
    obtain ⟨h1, h2⟩ := applyProcOp_invariant p op hnd hlt
    exact ih (p.applyOp op) h1 h2

/-- A GUID, once assigned to layer `j` of network `k`, survives any further
builder step at that position. -/
theorem applyProcOp_guidAt (p : Process) (op : ProcOp) (k j v : Nat)
    (h : p.guidAt k j = some v) : (p.applyOp op).guidAt k j = some v := by
  cases op with
  | newNetwork =>
    unfold Process.guidAt at h ⊢
    cases hk : p.networks[k]? with
    | none => rw [hk] at h; cases h
    | some gk =>
      rw [hk] at h
      have hklt : k < p.networks.length := by
        by_contra hge
        rw [List.getElem?_eq_none (Nat.le_of_not_lt hge)] at hk
        cases hk
      simp only [Process.applyOp]
      rw [List.getElem?_append_left hklt, hk]
      exact h
  | netOp m op =>
    unfold Process.guidAt at h ⊢
    cases hk : p.networks[k]? with
    | none => rw [hk] at h; cases h
    | some gk =>
      rw [hk] at h
      cases hm : p.networks[m]? with
      | none =>
        simp only [Process.applyOp, hm, hk]
        exact h
      | some gm =>
        simp only [Process.applyOp, hm]
        by_cases hkm : k = m
        · subst hkm
          rw [getElem?_setAt_self, hk]
          simp only [Option.map_some', Option.bind_some]
          rw [hk] at hm
          cases hm
          simp only [Option.some_bind] at h ⊢
          have hjlt : j < (guidsOf gk).length := by
            by_contra hge
            rw [List.getElem?_eq_none (Nat.le_of_not_lt hge)] at h
            cases h
          rcases applyOp_guids gk p.nextGuid op with ⟨hgs, -⟩ | ⟨hgs, -⟩
          · rw [hgs, List.getElem?_append_left hjlt]
            exact h
          · rw [hgs]
            exact h
        · rw [getElem?_setAt_ne _ _ _ _ hkm, hk]
          exact h

/-- Running further builder steps never changes an already-assigned GUID. -/
theorem run_guidAt (ops : List ProcOp) (p : Process) (k j v : Nat)
    (h : p.guidAt k j = some v) : (p.run ops).guidAt k j = some v := by
  induction ops generalizing p with
  | nil => exact h
  | cons op ops ih => exact ih (p.applyOp op) (applyProcOp_guidAt p op k j v h)

theorem run_append (p : Process) (ops1 ops2 : List ProcOp) :
    p.run (ops1 ++ ops2) = (p.run ops1).run ops2 := by
  induction ops1 generalizing p with
  | nil => rfl
  | cons op ops ih => exact ih (p.applyOp op)

/-- C6: all layers ever created through the Network builder within one
process — across all its Networks — carry pairwise distinct GUIDs, and a
layer's GUID never changes after construction: it survives any further
builder steps unchanged. -/
theorem layer_guids_unique_and_stable (ops more : List ProcOp) (k j v : Nat)
    (hv : (emptyProcess.run ops).guidAt k j = some v) :
    (emptyProcess.run ops).allGuids.Nodup
  ∧ (emptyProcess.run (ops ++ more)).guidAt k j = some v := by
  refine ⟨(run_invariant ops emptyProcess (by simp [Process.allGuids, emptyProcess])
    (by simp [Process.allGuids, emptyProcess])).1, ?_⟩
  rw [run_append]
  exact run_guidAt more _ k j v hv

/-- Witness for C6: a process that creates one Network with two layers, then
adds a third; the first layer's GUID 0 is unchanged. -/
theorem layer_guids_unique_and_stable_witness :
    (emptyProcess.run [.newNetwork, .netOp 0 (.addLayer .Input "a"),
        .netOp 0 (.addLayer .Output "b")]).allGuids.Nodup
  ∧ (emptyProcess.run ([.newNetwork, .netOp 0 (.addLayer .Input "a"),
        .netOp 0 (.addLayer .Output "b")] ++
        [.netOp 0 (.addLayer .Softmax "c")])).guidAt 0 0 = some 0 :=
  layer_guids_unique_and_stable
    [.newNetwork, .netOp 0 (.addLayer .Input "a"), .netOp 0 (.addLayer .Output "b")]
    [.netOp 0 (.addLayer .Softmax "c")] 0 0 0 (by rfl)

theorem setAt_setAt_self (l : List α) (i : Nat) (f f' : α → α) :
    setAt (setAt l i f) i f' = setAt l i (fun a => f' (f a)) := by
  induction l generalizing i with
  | nil => rfl
  | cons a as ih =>
    cases i with
    | zero => rfl
    | succ n => simp [setAt, ih]

theorem setAt_congr (l : List α) (i : Nat) (f f' : α → α)
    (h : ∀ a, f a = f' a) : setAt l i f = setAt l i f' := by
  induction l generalizing i with
  | nil => rfl
  | cons a as ih =>
    cases i with
    | zero => simp [setAt, h]
    | succ n => simp [setAt, ih]

theorem setInfosList_length (slots : List OutputSlot) (infos : List TensorInfo) :
    (setInfosList slots infos).length = slots.length := by
  induction slots generalizing infos with
  | nil => cases infos <;> rfl
  | cons s ss ih =>
    cases infos with
    | nil => rfl
    | cons i is => simp [setInfosList, ih]

theorem setInfosList_idem (slots : List OutputSlot) (infos : List TensorInfo) :
    setInfosList (setInfosList slots infos) infos = setInfosList slots infos := by
  induction slots generalizing infos with
  | nil => cases infos <;> rfl
  | cons s ss ih =>
    cases infos with
    | nil => rfl
    | cons i is => simp [setInfosList, ih]

/-- C8: `ValidateTensorShapesFromInputs` is idempotent — a second call on a
layer whose input descriptors are unchanged (no input of the layer is fed by
the layer itself, which acyclicity guarantees) succeeds again and leaves
every output slot descriptor, and indeed the whole graph, exactly as after
the first call: validation only overwrites with the same value and
accumulates no other state. -/
theorem validateTensorShapes_idempotent (g : Graph) (i : Nat) (g' : Graph)
    (hself : g.noSelfLoopAt i = true)
    (hok : g.validateTensorShapesFromInputs i = .ok g') :
    g'.validateTensorShapesFromInputs i = .ok g' := by
  unfold Graph.validateTensorShapesFromInputs at hok
  cases hl : g.layers[i]? with
  | none => rw [hl] at hok; cases hok
  | some l =>
    rw [hl] at hok
    dsimp only at hok
    by_cases hin : l.kind.isInput = true
    · rw [if_pos hin] at hok
      cases hok
      unfold Graph.validateTensorShapesFromInputs
      rw [hl]
      dsimp only
      rw [if_pos hin]
    · rw [if_neg hin] at hok
      cases hinfo : g.inputInfos i with
      | none => rw [hinfo] at hok; cases hok
      | some infos =>
        rw [hinfo] at hok
        dsimp only at hok
        cases hout : inferOutputs l.kind infos with
        | error e => rw [hout] at hok; cases hok
        | ok outs =>
          rw [hout] at hok
          dsimp only at hok
          by_cases hlen : outs.length = l.outputSlots.length
          · rw [if_pos hlen] at hok
            have hg' : g' = g.setOutputInfos i outs := by
              cases hok
              rfl
            have hl2 : g'.layers[i]? =
                some { l with outputSlots := setInfosList l.outputSlots outs } := by
              rw [hg']
              unfold Graph.setOutputInfos
              rw [getLayer_modifyLayer_self, hl]
              rfl
            have hselfs : ∀ s ∈ l.inputSlots, ∀ c, s.connection = some c → c.layer ≠ i := by
              intro s hs c hc
              unfold Graph.noSelfLoopAt at hself
              rw [hl] at hself
              have := List.all_eq_true.mp hself s hs
              rw [hc] at this
              simpa using this
            have hsrc : ∀ s ∈ l.inputSlots, g'.slotSourceInfo s = g.slotSourceInfo s := by
              intro s hs
              unfold Graph.slotSourceInfo
              cases hc : s.connection with
              | none => rfl
              | some c =>
                simp only [Option.some_bind]
                rw [hg']
                unfold Graph.setOutputInfos
                rw [getOutputSlot_modifyLayer_ne _ _ _ _ (hselfs s hs c hc)]
            have hinfo2 : g'.inputInfos i = some infos := by
              unfold Graph.inputInfos
              rw [hl2]
              dsimp only
              have hcoll : collectSome g'.slotSourceInfo l.inputSlots =
                  collectSome g.slotSourceInfo l.inputSlots :=
                collectSome_congr _ _ _ hsrc
              unfold Graph.inputInfos at hinfo
              rw [hl] at hinfo
              dsimp only at hinfo
              rw [hcoll]
              exact hinfo
            unfold Graph.validateTensorShapesFromInputs
            rw [hl2]
            dsimp only
            rw [if_neg hin, hinfo2]
            dsimp only
            rw [hout]
            dsimp only
            rw [if_pos (by rw [setInfosList_length]; exact hlen)]
            have hfix : g'.setOutputInfos i outs = g' := by
              rw [hg']
              unfold Graph.setOutputInfos Graph.modifyLayer
              apply congrArg Graph.mk
              rw [setAt_setAt_self]
              apply setAt_congr
              intro a
              simp [setInfosList_idem]
            rw [hfix]
          · rw [if_neg hlen] at hok
            cases hok

/-- Witness for C8: validating the Softmax layer of `lineGraph` (after the
input binding is set) twice yields the same graph both times. -/
theorem validateTensorShapes_idempotent_witness :
    lineGraph.noSelfLoopAt 1 = true
  ∧ ((match lineGraph.validateTensorShapesFromInputs 1 with
      | .ok g1 => g1.validateTensorShapesFromInputs 1 = .ok g1
      | .error _ => False) : Prop) := by
  refine ⟨by decide, ?_⟩
  exact validateTensorShapes_idempotent lineGraph 1 _ (by decide) (by rfl)

/-- C5: `MergerLayer::ValidateTensorShapesFromInputs` — given N resolved
inputs all of rank equal to the declared dimension count, matching sizes on
every axis except the concatenation axis, and per-view offsets whose placed
regions do not overlap, it assigns the output descriptor equal to the
bounding box of all placed views (on each axis the largest origin-plus-extent
over the views) with the inputs' common element type; with overlapping
offsets it fails with `ShapeMismatch`, and with inputs disagreeing on element
type it fails with `TypeMismatch`. -/
theorem mergerLayer_validate_spec (o : OriginsDescriptor) (infos : List TensorInfo)
    (axis : Nat) (_hn : infos.length = o.numViews)
    (hrank : ∀ t ∈ infos, t.shape.length = o.numDims)
    (_hmatch : ∀ t1 ∈ infos, ∀ t2 ∈ infos, ∀ d < o.numDims, d ≠ axis →
        t1.shape.getD d 0 = t2.shape.getD d 0) :
    (typesAgree infos = true →
      viewsDisjoint o.numDims (o.viewOrigins.zip (infos.map (·.shape))) = true →
        mergerInfer o infos = .ok [⟨boundingShape o infos, commonDataType infos⟩]
      ∧ ∀ d < o.numDims, (boundingShape o infos)[d]? =
          some (((o.viewOrigins.zip infos).map fun v =>
            v.1.getD d 0 + v.2.shape.getD d 0).foldr max 0))
  ∧ (typesAgree infos = false → mergerInfer o infos = .error .TypeMismatch)
  ∧ (typesAgree infos = true →
      viewsDisjoint o.numDims (o.viewOrigins.zip (infos.map (·.shape))) = false →
        mergerInfer o infos = .error .ShapeMismatch) := by
  have hrankb : (infos.all fun i => i.shape.length == o.numDims) = true := by
    apply List.all_eq_true.mpr
    intro t ht
    exact beq_iff_eq.mpr (hrank t ht)
  refine ⟨?_, ?_, ?_⟩
  · intro hty hdj
    constructor
    · unfold mergerInfer
      rw [hrankb, hty, hdj]
      rfl
    · intro d hd
      unfold boundingShape
      rw [List.getElem?_map, List.getElem?_range hd]
      rfl
  · intro hty
    unfold mergerInfer
    rw [hrankb, hty]
    rfl
  · intro hty hdj
    unfold mergerInfer
    rw [hrankb, hty, hdj]
    rfl

/-- Witness for C5 at a concrete descriptor: two one-dimensional views of
sizes 2 and 3 placed at offsets 0 and 2 concatenate to the bounding shape
[5]. -/
theorem mergerLayer_validate_spec_witness :
    twoViewInputs.length = twoViewOrigins.numViews
  ∧ ((typesAgree twoViewInputs = true →
      viewsDisjoint twoViewOrigins.numDims
        (twoViewOrigins.viewOrigins.zip (twoViewInputs.map (·.shape))) = true →
        mergerInfer twoViewOrigins twoViewInputs =
          .ok [⟨boundingShape twoViewOrigins twoViewInputs, commonDataType twoViewInputs⟩]
      ∧ ∀ d < twoViewOrigins.numDims, (boundingShape twoViewOrigins twoViewInputs)[d]? =
          some (((twoViewOrigins.viewOrigins.zip twoViewInputs).map fun v =>
            v.1.getD d 0 + v.2.shape.getD d 0).foldr max 0))
    ∧ (typesAgree twoViewInputs = false →
        mergerInfer twoViewOrigins twoViewInputs = .error .TypeMismatch)
    ∧ (typesAgree twoViewInputs = true →
        viewsDisjoint twoViewOrigins.numDims
          (twoViewOrigins.viewOrigins.zip (twoViewInputs.map (·.shape))) = false →
        mergerInfer twoViewOrigins twoViewInputs = .error .ShapeMismatch)) :=
  ⟨by decide,
    mergerLayer_validate_spec twoViewOrigins twoViewInputs 0 (by decide)
      (by decide)
      (by
        intro t1 h1 t2 h2 d hd hne
        exact absurd (Nat.lt_one_iff.mp hd) hne)⟩

set_option maxRecDepth 16384 in
/-- C7: the textual (dot) export of the optimized Input→Addition(twice from
the same output slot)→Output graph with a 1-D size-4 descriptor lists one
node per layer labeled by operator kind (in graph iteration order: Input,
Addition, Output, GUIDs 0, 1, 2) and one edge per connection labeled by the
transmitted shape `[4]` (in per-output-slot fan-out order: the two
Input→Addition edges, then Addition→Output) — exactly the text the
`SerializeToDot` test expects. -/
theorem serializeToDot_expected_text :
    (optimize supAll [Backend.CpuAcc] dotTestGraph).map Graph.serializeToDot =
      .ok ("digraph Optimized \x7b\n" ++
        "    node [shape=\"record\"];\n" ++
        "    edge [fontsize=8 fontcolor=\"blue\" fontname=\"arial-bold\"];\n" ++
        "    0 [label=\"\x7bInput\x7d\"];\n" ++
        "    1 [label=\"\x7bAddition\x7d\"];\n" ++
        "    2 [label=\"\x7bOutput\x7d\"];\n" ++
        "    0 -> 1 [label=< [4] >];\n" ++
        "    0 -> 1 [label=< [4] >];\n" ++
        "    1 -> 2 [label=< [4] >];\n" ++
        "\x7d\n") := by
  rfl

theorem setInfosList_resolved (slots : List OutputSlot) (infos : List TensorInfo)
    (h : infos.length = slots.length) :
    ((setInfosList slots infos).all fun s => s.tensorInfo.isSome) = true := by
  induction slots generalizing infos with
  | nil => cases infos <;> rfl
  | cons s ss ih =>
    cases infos with
    | nil => cases h
    | cons i is =>
      simp only [setInfosList, List.all_cons, Option.isSome_some, Bool.true_and]
      exact ih is (by simpa using h)

/-- A successful shape validation of layer `i` keeps the layer count, every
other layer, and every layer's operator kind. -/
theorem validate_frame (g : Graph) (i : Nat) (g' : Graph)
    (hok : g.validateTensorShapesFromInputs i = .ok g') :
    g'.layers.length = g.layers.length
  ∧ (∀ j : Nat, j ≠ i → g'.layers[j]? = g.layers[j]?)
  ∧ (∀ j : Nat, (g'.layers[j]?).map (fun l : Layer => l.kind) =
       (g.layers[j]?).map (fun l : Layer => l.kind)) := by
  unfold Graph.validateTensorShapesFromInputs at hok
  cases hl : g.layers[i]? with
  | none => rw [hl] at hok; cases hok
  | some l =>
    rw [hl] at hok
    dsimp only at hok
    by_cases hin : l.kind.isInput = true
    · rw [if_pos hin] at hok
      cases hok
      exact ⟨rfl, fun j _ => rfl, fun j => rfl⟩
    · rw [if_neg hin] at hok
      cases hinfo : g.inputInfos i with
      | none => rw [hinfo] at hok; cases hok
      | some infos =>
        rw [hinfo] at hok
        dsimp only at hok
        cases hout : inferOutputs l.kind infos with
        | error e => rw [hout] at hok; cases hok
        | ok outs =>
          rw [hout] at hok
          dsimp only at hok
          by_cases hlen : outs.length = l.outputSlots.length
          · rw [if_pos hlen] at hok
            have hg' : g' = g.setOutputInfos i outs := by cases hok; rfl
            subst hg'
            unfold Graph.setOutputInfos Graph.modifyLayer
            refine ⟨setAt_length _ _ _, ?_, ?_⟩
            · intro j hj
              exact getElem?_setAt_ne _ _ _ _ hj
            · intro j
              by_cases hj : j = i
              · subst hj
                rw [getElem?_setAt_self, hl]
                rfl
              · rw [getElem?_setAt_ne _ _ _ _ hj]
          · rw [if_neg hlen] at hok
            cases hok

/-- Effect of a successful shape validation on layer `i` itself: an Input
layer is left alone; any other layer ends with every output slot resolved. -/
theorem validate_effect (g : Graph) (i : Nat) (g' : Graph)
    (hok : g.validateTensorShapesFromInputs i = .ok g') (l : Layer)
    (hl : g.layers[i]? = some l) :
    (l.kind.isInput = true ∧ g' = g)
  ∨ (l.kind.isInput = false ∧
      ∀ l', g'.layers[i]? = some l' → l'.outputsResolved = true) := by
  unfold Graph.validateTensorShapesFromInputs at hok
  rw [hl] at hok
  dsimp only at hok
  by_cases hin : l.kind.isInput = true
  · rw [if_pos hin] at hok
    cases hok
    exact Or.inl ⟨hin, rfl⟩
  · rw [if_neg hin] at hok
    cases hinfo : g.inputInfos i with
    | none => rw [hinfo] at hok; cases hok
    | some infos =>
      rw [hinfo] at hok
      dsimp only at hok
      cases hout : inferOutputs l.kind infos with
      | error e => rw [hout] at hok; cases hok
      | ok outs =>
        rw [hout] at hok
        dsimp only at hok
        by_cases hlen : outs.length = l.outputSlots.length
        · rw [if_pos hlen] at hok
          have hg' : g' = g.setOutputInfos i outs := by cases hok; rfl
          subst hg'
          refine Or.inr ⟨Bool.eq_false_iff.mpr hin, ?_⟩
          intro l' hl'
          unfold Graph.setOutputInfos at hl'
          rw [getLayer_modifyLayer_self, hl] at hl'
          simp only [Option.map_some', Option.some.injEq] at hl'
          subst hl'
          unfold Layer.outputsResolved
          exact setInfosList_resolved _ _ hlen
        · rw [if_neg hlen] at hok
          cases hok

/-- A successful shape validation never unresolves an output slot of any
layer. -/
theorem validate_monotone (g : Graph) (i : Nat) (g' : Graph)
    (hok : g.validateTensorShapesFromInputs i = .ok g')
    (j : Nat) (l l' : Layer) (hl : g.layers[j]? = some l)
    (hl' : g'.layers[j]? = some l') (hres : l.outputsResolved = true) :
    l'.outputsResolved = true := by
  obtain ⟨-, hother, -⟩ := validate_frame g i g' hok
  by_cases hj : j = i
  · subst hj
    rcases validate_effect g j g' hok l hl with ⟨-, hgg⟩ | ⟨-, hall⟩
    · subst hgg
      rw [hl] at hl'
      cases hl'
      exact hres
    · exact hall l' hl'
  · rw [hother j hj, hl] at hl'
    cases hl'
    exact hres

/-- Running shape inference over a list of layer indices (in order) keeps
the layer count and kinds, never unresolves a slot, and resolves every
output slot of every visited non-Input layer. -/
theorem inferAll_effect (ord : List Nat) (g g' : Graph)
    (hok : inferAll g ord = .ok g') :
    g'.layers.length = g.layers.length
  ∧ (∀ j : Nat, (g'.layers[j]?).map (fun l : Layer => l.kind) =
       (g.layers[j]?).map (fun l : Layer => l.kind))
  ∧ (∀ j : Nat, ∀ l l' : Layer, g.layers[j]? = some l → g'.layers[j]? = some l' →
       l.outputsResolved = true → l'.outputsResolved = true)
  ∧ (∀ j ∈ ord, ∀ l' : Layer, g'.layers[j]? = some l' →
       l'.kind.isInput = true ∨ l'.outputsResolved = true) := by
  induction ord generalizing g with
  | nil =>
    cases hok
    exact ⟨rfl, fun j => rfl, fun j l l' h h' hr => by rw [h] at h'; cases h'; exact hr,
      fun j hj => absurd hj (List.not_mem_nil j)⟩
  | cons i rest ih =>
    unfold inferAll at hok
    cases hv : g.validateTensorShapesFromInputs i with
    | error e => rw [hv] at hok; cases hok
    | ok g1 =>
      rw [hv] at hok
      dsimp only at hok
      obtain ⟨ihlen, ihkind, ihmono, ihvisited⟩ := ih g1 hok
      obtain ⟨vlen, vother, vkind⟩ := validate_frame g i g1 hv
      have hsome : ∀ j : Nat, ∀ l : Layer, g.layers[j]? = some l →
          ∃ l1 : Layer, g1.layers[j]? = some l1 ∧ l1.kind = l.kind := by
        intro j l hl
        have := vkind j
        rw [hl] at this
        cases hx : g1.layers[j]? with
        | none => rw [hx] at this; cases this
        | some l1 =>
          rw [hx] at this
          simp only [Option.map_some', Option.some.injEq] at this
          exact ⟨l1, rfl, this⟩
      refine ⟨ihlen.trans vlen, ?_, ?_, ?_⟩
      · intro j
        rw [ihkind j, vkind j]
      · intro j l l' hl hl' hres
        obtain ⟨l1, hl1, -⟩ := hsome j l hl
        exact ihmono j l1 l' hl1 hl' (validate_monotone g i g1 hv j l l1 hl hl1 hres)
      · intro j hj l' hl'
        rcases List.mem_cons.mp hj with hji | hjr
        · subst hji
          cases hlg : g.layers[j]? with
          | none =>
            exfalso
            unfold Graph.validateTensorShapesFromInputs at hv
            rw [hlg] at hv
            cases hv
          | some l =>
            rcases validate_effect g j g1 hv l hlg with ⟨hinp, hgg⟩ | ⟨hninp, hall⟩
            · left
              have hk : (g'.layers[j]?).map (fun l : Layer => l.kind) =
                  (g1.layers[j]?).map (fun l : Layer => l.kind) := ihkind j
              subst hgg
              rw [hl', hlg] at hk
              simp only [Option.map_some', Option.some.injEq] at hk
              rw [hk]
              exact hinp
            · right
              obtain ⟨l1, hl1, -⟩ := hsome j l hlg
              exact ihmono j l1 l' hl1 hl' (hall l1 hl1)
        · exact ihvisited j hjr l' hl'

/-- The topological-sort loop only returns complete, duplicate-free,
in-range emission orders. -/
theorem topoLoop_props (g : Graph) (fuel : Nat) (done : List Nat)
    (hnd : done.Nodup) (hlt : ∀ x ∈ done, x < g.layers.length) (ord : List Nat)
    (h : topoLoop g fuel done = some ord) :
    ord.Nodup ∧ ord.length = g.layers.length ∧ ∀ x ∈ ord, x < g.layers.length := by
  induction fuel generalizing done with
  | zero =>
    unfold topoLoop at h
    by_cases hd : done.length = g.layers.length
    · rw [if_pos hd] at h
      cases h
      exact ⟨List.nodup_reverse.mpr hnd, by simpa using hd,
        fun x hx => hlt x (List.mem_reverse.mp hx)⟩
    · rw [if_neg hd] at h
      cases h
  | succ fuel ih =>
    unfold topoLoop at h
    by_cases hd : done.length = g.layers.length
    · rw [if_pos hd] at h
      cases h
      exact ⟨List.nodup_reverse.mpr hnd, by simpa using hd,
        fun x hx => hlt x (List.mem_reverse.mp hx)⟩
    · rw [if_neg hd] at h
      cases hf : (List.range g.layers.length).find? (g.ready done) with
      | none => rw [hf] at h; cases h
      | some i =>
        rw [hf] at h
        have hready := List.find?_some hf
        unfold Graph.ready at hready
        simp only [Bool.and_eq_true, decide_eq_true_eq, Bool.not_eq_true'] at hready
        obtain ⟨⟨hilt, hnotdone⟩, -⟩ := hready
        have hni : i ∉ done := by
          intro hmem
          have : done.contains i = true := List.elem_iff.mpr hmem
          rw [this] at hnotdone
          cases hnotdone
        exact ih (i :: done) (List.Nodup.cons hni hnd)
          (by
            intro x hx
            rcases List.mem_cons.mp hx with hx | hx
            · subst hx; exact hilt
            · exact hlt x hx) h

/-- A topological order emitted for a graph visits every layer index. -/
theorem topoOrder_complete (g : Graph) (ord : List Nat)
    (h : g.topoOrder = some ord) :
    ∀ i < g.layers.length, i ∈ ord := by
  obtain ⟨hnd, hlen, hmem⟩ := topoLoop_props g g.layers.length []
    List.nodup_nil (by intro x hx; cases hx) ord h
  intro i hi
  have hcard : ord.toFinset.card = g.layers.length := by
    rw [List.toFinset_card_of_nodup hnd, hlen]
  have hsub : ord.toFinset ⊆ Finset.range g.layers.length := by
    intro x hx
    exact Finset.mem_range.mpr (hmem x (List.mem_toFinset.mp hx))
  have heq : ord.toFinset = Finset.range g.layers.length :=
    Finset.eq_of_subset_of_card_le hsub (by rw [hcard, Finset.card_range])
  have hmem2 : i ∈ Finset.range g.layers.length := Finset.mem_range.mpr hi
  rw [← heq] at hmem2
  exact List.mem_toFinset.mp hmem2

/-- Backend assignment succeeds on a layer list whose every member is
supported by some backend of the policy, assigns exactly one backend to
every layer, and leaves all slots untouched. -/
theorem assignList_spec (sup : Backend → LayerKind → Bool) (policy : List Backend)
    (ls : List Layer)
    (h : ∀ l ∈ ls, (policy.any fun b => sup b l.kind) = true) :
    ∃ ls', assignList sup policy ls = some ls'
  ∧ (∀ j : Nat, (ls'[j]?).map (fun l : Layer => l.outputSlots) =
       (ls[j]?).map (fun l : Layer => l.outputSlots))
  ∧ (∀ l' ∈ ls', l'.backend.isSome = true) := by
  induction ls with
  | nil =>
    exact ⟨[], rfl, fun j => rfl, fun l' hl' => absurd hl' (List.not_mem_nil l')⟩
  | cons l ls ih =>
    obtain ⟨ls', hls', hslots, hback⟩ := ih fun x hx => h x (List.mem_cons_of_mem l hx)
    have hl : (policy.any fun b => sup b l.kind) = true := h l (List.mem_cons_self l ls)
    rw [List.any_eq_true] at hl
    obtain ⟨b, hbmem, hbsup⟩ := hl
    have hfind : (policy.find? fun b => sup b l.kind).isSome = true := by
      rw [List.find?_isSome]
      exact ⟨b, hbmem, hbsup⟩
    cases hfx : policy.find? fun b => sup b l.kind with
    | none => rw [hfx] at hfind; cases hfind
    | some b0 =>
      refine ⟨{ l with backend := some b0 } :: ls', ?_, ?_, ?_⟩
      · unfold assignList assignLayer
        rw [hfx, hls']
        rfl
      · intro j
        cases j with
        | zero => simp
        | succ m => simpa using hslots m
      · intro l' hl'
        rcases List.mem_cons.mp hl' with hx | hx
        · subst hx; rfl
        · exact hback l' hx

/-- C1: on a graph whose every input slot is connected, whose Input-layer
binding descriptors are set, whose resolved descriptors are consistent with
every operator's shape rule (shape inference succeeds), and whose every
operator is supported by some backend of the device policy, `Optimize`
succeeds and returns an optimized graph in which every output slot (in
particular every one reachable from an Input layer) has a resolved tensor
descriptor and every layer has exactly one assigned backend — the
post-condition a subsequent per-layer `CreateWorkload` needs. -/
theorem optimize_yields_resolved_backed_network (sup : Backend → LayerKind → Bool)
    (policy : List Backend) (g : Graph)
    (hconn : g.allInputSlotsConnected = true)
    (hbind : g.inputLayersResolved = true)
    (hinf : Except.isOk g.inferShapes = true)
    (hsup : ∀ l ∈ g.layers, (policy.any fun b => sup b l.kind) = true) :
    ∃ g', optimize sup policy g = .ok g'
  ∧ g'.allOutputSlotsResolved = true
  ∧ g'.allBackendsAssigned = true := by
  cases hx : g.inferShapes with
  | error e => rw [hx] at hinf; cases hinf
  | ok g1 =>
    have hordx : ∃ ord, g.topoOrder = some ord ∧ inferAll g ord = .ok g1 := by
      unfold Graph.inferShapes at hx
      cases ho : g.topoOrder with
      | none => rw [ho] at hx; cases hx
      | some ord => rw [ho] at hx; exact ⟨ord, rfl, hx⟩
    obtain ⟨ord, hord, hall⟩ := hordx
    obtain ⟨hlen, hkind, hmono, hvisited⟩ := inferAll_effect ord g g1 hall
    have hres1 : g1.allOutputSlotsResolved = true := by
      unfold Graph.allOutputSlotsResolved
      rw [List.all_eq_true]
      intro l' hl'
      obtain ⟨j, hj⟩ := List.mem_iff_getElem?.mp hl'
      have hjlt : j < g.layers.length := by
        rw [← hlen]
        by_contra hge
        rw [List.getElem?_eq_none (Nat.le_of_not_lt hge)] at hj
        cases hj
      have hjord : j ∈ ord := topoOrder_complete g ord hord j hjlt
      rcases hvisited j hjord l' hj with hinp | hres
      · -- an Input layer: its descriptors come from the bindings
        have hk := hkind j
        rw [hj] at hk
        cases hlg : g.layers[j]? with
        | none => rw [hlg] at hk; cases hk
        | some l =>
          rw [hlg] at hk
          simp only [Option.map_some', Option.some.injEq] at hk
          have hlres : l.outputsResolved = true := by
            unfold Graph.inputLayersResolved at hbind
            rw [List.all_eq_true] at hbind
            have hthis := hbind l (List.mem_iff_getElem?.mpr ⟨j, hlg⟩)
            rw [← hk, hinp] at hthis
            simpa using hthis
          exact hmono j l l' hlg hj hlres
      · exact hres
    have hsup1 : ∀ l ∈ g1.layers, (policy.any fun b => sup b l.kind) = true := by
      intro l' hl'
      obtain ⟨j, hj⟩ := List.mem_iff_getElem?.mp hl'
      have hk := hkind j
      rw [hj] at hk
      cases hlg : g.layers[j]? with
      | none => rw [hlg] at hk; cases hk
      | some l =>
        rw [hlg] at hk
        simp only [Option.map_some', Option.some.injEq] at hk
        rw [hk]
        exact hsup l (List.mem_iff_getElem?.mpr ⟨j, hlg⟩)
    obtain ⟨ls', hls', hslots, hback⟩ := assignList_spec sup policy g1.layers hsup1
    refine ⟨⟨ls'⟩, ?_, ?_, ?_⟩
    · unfold optimize
      rw [if_pos hconn, hx]
      dsimp only
      unfold assignBackends
      rw [hls']
    · unfold Graph.allOutputSlotsResolved
      rw [List.all_eq_true]
      intro l' hl'
      obtain ⟨j, hj⟩ := List.mem_iff_getElem?.mp hl'
      have hs := hslots j
      rw [hj] at hs
      cases hlg : g1.layers[j]? with
      | none => rw [hlg] at hs; cases hs
      | some l1 =>
        rw [hlg] at hs
        simp only [Option.map_some', Option.some.injEq] at hs
        unfold Graph.allOutputSlotsResolved at hres1
        rw [List.all_eq_true] at hres1
        have := hres1 l1 (List.mem_iff_getElem?.mpr ⟨j, hlg⟩)
        unfold Layer.outputsResolved at this ⊢
        rw [hs]
        exact this
    · unfold Graph.allBackendsAssigned
      rw [List.all_eq_true]
      intro l' hl'
      exact hback l' hl'

/-- Witness for C1: the Input → Softmax → Output line network with its input
binding set, optimized for the always-supporting reference backend. -/
theorem optimize_yields_resolved_backed_network_witness :
    lineGraph.allInputSlotsConnected = true
  ∧ lineGraph.inputLayersResolved = true
  ∧ Except.isOk lineGraph.inferShapes = true
  ∧ (∃ g', optimize supAll [Backend.CpuRef] lineGraph = .ok g'
      ∧ g'.allOutputSlotsResolved = true
      ∧ g'.allBackendsAssigned = true) :=
  ⟨by decide, by decide, by decide,
    optimize_yields_resolved_backed_network supAll [Backend.CpuRef] lineGraph
      (by decide) (by decide) (by decide) (by decide)⟩

end ArmNN
